import Mathlib

/-!
Verification of the de-identification core of `deidentify_fhir.py`.

The development shallowly embeds the Python source: JSON documents become the
`Json` inductive, Python strings become `List Char`, `hashlib.sha256` is
implemented bit-for-bit over `Nat` (reduced mod 2^32 where the source relies
on 32-bit wrap-around), `datetime` objects become `PyDateTime` with the
calendar-validity checks of the CPython constructor, and exceptions escaping a
function become `Except PyErr`.
-/

set_option maxRecDepth 10000

abbrev LC := List Char

/-! ## Character and digit utilities -/

def isDigitCh (c : Char) : Bool := '0' ≤ c && c ≤ '9'

def digitVal (c : Char) : Nat := c.toNat - 48

def digitCh (n : Nat) : Char := Char.ofNat (48 + n)

def allDigits (s : LC) : Bool := s.all isDigitCh

def digitsToNatGo : LC → Nat → Nat
  | [], acc => acc
  | c :: cs, acc => digitsToNatGo cs (acc * 10 + digitVal c)

def digitsToNat (s : LC) : Nat := digitsToNatGo s 0

/-- Python `int(s)` modelled for strings that are digits with an optional
leading minus sign (the only shapes the program can feed it). -/
def pyInt : LC → Option Int
  | [] => none
  | c :: rest =>
    if c = '-' then
      if rest ≠ [] && allDigits rest then some (-(digitsToNat rest : Int)) else none
    else if allDigits (c :: rest) then some (digitsToNat (c :: rest) : Int) else none

/-- Python `f"{n:02d}"` for `n < 100`. -/
def pad2 (n : Nat) : LC := [digitCh (n / 10 % 10), digitCh (n % 10)]

/-- Python `f"{n:04d}"` for `n < 10000`; also models `strftime("%Y")`
(zero-padded year, as in the Python documentation's table). -/
def pad4 (n : Nat) : LC :=
  [digitCh (n / 1000 % 10), digitCh (n / 100 % 10), digitCh (n / 10 % 10), digitCh (n % 10)]

/-- Python `f"{n:06d}"` for `n < 1000000` (microseconds in `isoformat`). -/
def pad6 (n : Nat) : LC :=
  [digitCh (n / 100000 % 10), digitCh (n / 10000 % 10), digitCh (n / 1000 % 10),
   digitCh (n / 100 % 10), digitCh (n / 10 % 10), digitCh (n % 10)]

def lowerCh (c : Char) : Char :=
  if 'A' ≤ c && c ≤ 'Z' then Char.ofNat (c.toNat + 32) else c

/-- Python `str.lower`, modelled on the ASCII range. -/
def lowerAscii (s : LC) : LC := s.map lowerCh

/-- Python `s.rstrip("Z")`. -/
def rstripZ (s : LC) : LC := (s.reverse.dropWhile (fun c => c = 'Z')).reverse

/-- Python `c in s` for a single character. -/
def hasCh (c : Char) (s : LC) : Bool := s.any (fun x => x = c)

/-- Python `s[:-n]` for `n > 0` (and `s[:len s]` for `n = 0` as used below). -/
def pyDropEnd (n : Nat) (s : LC) : LC := s.take (s.length - n)

/-- The digits standing after the first `.` of `core` and before any further
`.` — Python `core.split(".")[1]`. `none` when `core` has no dot. -/
def afterDot : LC → Option LC
  | [] => none
  | c :: rest =>
    if c = '.' then some (rest.takeWhile (fun x => x ≠ '.')) else afterDot rest

def fracLenOf (core : LC) : Nat :=
  match afterDot core with
  | some seg => seg.length
  | none => 0

/-- Python `n.to_bytes`-style base-256 big-endian read of a byte list. -/
def beBytesToNat (bs : List Nat) : Nat := bs.foldl (fun acc b => acc * 256 + b) 0

/-! ## UTF-8 encoding (Python `str.encode()`) -/

def utf8Ch (c : Char) : List Nat :=
  let n := c.toNat
  if n < 128 then [n]
  else if n < 2048 then [192 + n / 64, 128 + n % 64]
  else if n < 65536 then [224 + n / 4096, 128 + n / 64 % 64, 128 + n % 64]
  else [240 + n / 262144, 128 + n / 4096 % 64, 128 + n / 64 % 64, 128 + n % 64]

def utf8 (s : LC) : List Nat := (s.map utf8Ch).flatten

/-! ## SHA-256 (`hashlib.sha256`), over byte lists -/

def w32 (n : Nat) : Nat := n % 4294967296

def shR (x n : Nat) : Nat := x / 2 ^ n

def rotR (x n : Nat) : Nat := w32 (x / 2 ^ n + x % 2 ^ n * 2 ^ (32 - n))

def not32 (x : Nat) : Nat := 4294967295 - x

def bigS0 (x : Nat) : Nat := (rotR x 2).xor ((rotR x 13).xor (rotR x 22))

def bigS1 (x : Nat) : Nat := (rotR x 6).xor ((rotR x 11).xor (rotR x 25))

def smS0 (x : Nat) : Nat := (rotR x 7).xor ((rotR x 18).xor (shR x 3))

def smS1 (x : Nat) : Nat := (rotR x 17).xor ((rotR x 19).xor (shR x 10))

def chF (x y z : Nat) : Nat := (x.land y).xor ((not32 x).land z)

def majF (x y z : Nat) : Nat := (x.land y).xor ((x.land z).xor (y.land z))

def sha256K : List Nat :=
  [1116352408, 1899447441, 3049323471, 3921009573, 961987163, 1508970993,
   2453635748, 2870763221, 3624381080, 310598401, 607225278, 1426881987,
   1925078388, 2162078206, 2614888103, 3248222580, 3835390401, 4022224774,
   264347078, 604807628, 770255983, 1249150122, 1555081692, 1996064986,
   2554220882, 2821834349, 2952996808, 3210313671, 3336571891, 3584528711,
   113926993, 338241895, 666307205, 773529912, 1294757372, 1396182291,
   1695183700, 1986661051, 2177026350, 2456956037, 2730485921, 2820302411,
   3259730800, 3345764771, 3516065817, 3600352804, 4094571909, 275423344,
   430227734, 506948616, 659060556, 883997877, 958139571, 1322822218,
   1537002063, 1747873779, 1955562222, 2024104815, 2227730452, 2361852424,
   2428436474, 2756734187, 3204031479, 3329325298]

def sha256H0 : List Nat :=
  [1779033703, 3144134277, 1013904242, 2773480762, 1359893119, 2600822924,
   528734635, 1541459225]

def beBytes8 (n : Nat) : List Nat :=
  [n / 2 ^ 56 % 256, n / 2 ^ 48 % 256, n / 2 ^ 40 % 256, n / 2 ^ 32 % 256,
   n / 2 ^ 24 % 256, n / 2 ^ 16 % 256, n / 2 ^ 8 % 256, n % 256]

def sha256Pad (msg : List Nat) : List Nat :=
  msg ++ [128] ++ List.replicate ((119 - msg.length % 64) % 64) 0 ++ beBytes8 (msg.length * 8)

def toWords : List Nat → List Nat
  | b0 :: b1 :: b2 :: b3 :: rest => (((b0 * 256 + b1) * 256 + b2) * 256 + b3) :: toWords rest
  | _ => []

def extendW (w : List Nat) : List Nat :=
  (List.range 64).foldl
    (fun acc i =>
      if i < 16 then acc ++ [w.getD i 0]
      else acc ++ [w32 (smS1 (acc.getD (i - 2) 0) + acc.getD (i - 7) 0 +
                        smS0 (acc.getD (i - 15) 0) + acc.getD (i - 16) 0)])
    []

def compressRound (st : List Nat) (kw : Nat) : List Nat :=
  match st with
  | [a, b, c, d, e, f, g, h] =>
    let t1 := w32 (h + bigS1 e + chF e f g + kw)
    let t2 := w32 (bigS0 a + majF a b c)
    [w32 (t1 + t2), a, b, c, w32 (d + t1), e, f, g]
  | st => st

def compressBlock (hs : List Nat) (block : List Nat) : List Nat :=
  let w := extendW (toWords block)
  let kw := (sha256K.zip w).map (fun p => w32 (p.1 + p.2))
  let st := kw.foldl compressRound hs
  (hs.zip st).map (fun p => w32 (p.1 + p.2))

def chunks64 (l : List Nat) : List (List Nat) :=
  (List.range ((l.length + 63) / 64)).map (fun i => (l.drop (64 * i)).take 64)

def be4 (n : Nat) : List Nat := [n / 16777216 % 256, n / 65536 % 256, n / 256 % 256, n % 256]

/-- `hashlib.sha256(msg).digest()` as a list of 32 bytes. -/
def sha256Bytes (msg : List Nat) : List Nat :=
  (((chunks64 (sha256Pad msg)).foldl compressBlock sha256H0).map be4).flatten

def hexCh (n : Nat) : Char := if n < 10 then digitCh n else Char.ofNat (87 + n)

def hexByte (b : Nat) : LC := [hexCh (b / 16), hexCh (b % 16)]

/-- `hashlib.sha256(bytes).hexdigest()`. -/
def sha256Hex (msg : List Nat) : LC := (((sha256Bytes msg).map hexByte)).flatten

/-- Source `sha256_hash(value, salt)`:
`hashlib.sha256((salt + value).encode()).hexdigest()[:16]`. -/
def sha256_hash (value salt : LC) : LC := (sha256Hex (utf8 (salt ++ value))).take 16

/-- Source `deterministic_offset(base_salt, patient_id)`: first 4 digest bytes
big-endian, mod 181, minus 90. -/
def deterministic_offset (baseSalt patientId : LC) : Int :=
  (Int.ofNat (beBytesToNat ((sha256Bytes (utf8 (baseSalt ++ patientId))).take 4) % 181)) - 90

/-! ## JSON documents -/

inductive Json where
  | null
  | bool (b : Bool)
  | num (n : Int)
  | str (s : LC)
  | arr (xs : List Json)
  | obj (fields : List (LC × Json))

mutual

def jsonBeq : Json → Json → Bool
  | .null, .null => true
  | .bool a, .bool b => a = b
  | .num a, .num b => a = b
  | .str a, .str b => a = b
  | .arr a, .arr b => jsonListBeq a b
  | .obj a, .obj b => jsonObjBeq a b
  | _, _ => false

def jsonListBeq : List Json → List Json → Bool
  | [], [] => true
  | x :: xs, y :: ys => jsonBeq x y && jsonListBeq xs ys
  | _, _ => false

def jsonObjBeq : List (LC × Json) → List (LC × Json) → Bool
  | [], [] => true
  | (k1, v1) :: xs, (k2, v2) :: ys => (k1 = k2 : Bool) && jsonBeq v1 v2 && jsonObjBeq xs ys
  | _, _ => false

end

mutual

theorem jsonBeq_refl : ∀ a : Json, jsonBeq a a = true
  | .null => rfl
  | .bool _ => by simp [jsonBeq]
  | .num _ => by simp [jsonBeq]
  | .str _ => by simp [jsonBeq]
  | .arr xs => by simp [jsonBeq, jsonListBeq_refl xs]
  | .obj fs => by simp [jsonBeq, jsonObjBeq_refl fs]

theorem jsonListBeq_refl : ∀ xs : List Json, jsonListBeq xs xs = true
  | [] => rfl
  | x :: xs => by simp [jsonListBeq, jsonBeq_refl x, jsonListBeq_refl xs]

theorem jsonObjBeq_refl : ∀ fs : List (LC × Json), jsonObjBeq fs fs = true
  | [] => rfl
  | (_, v) :: fs => by simp [jsonObjBeq, jsonBeq_refl v, jsonObjBeq_refl fs]

end

mutual

theorem eq_of_jsonBeq : ∀ a b : Json, jsonBeq a b = true → a = b
  | .null, .null, _ => rfl
  | .bool a, .bool b, h => by simpa [jsonBeq] using h
  | .num a, .num b, h => by simpa [jsonBeq] using h
  | .str a, .str b, h => by simpa [jsonBeq] using h
  | .arr a, .arr b, h => by
    simp only [jsonBeq] at h
    exact congrArg Json.arr (eq_of_jsonListBeq a b h)
  | .obj a, .obj b, h => by
    simp only [jsonBeq] at h
    exact congrArg Json.obj (eq_of_jsonObjBeq a b h)
  | .null, .bool _, h => by simp [jsonBeq] at h
  | .null, .num _, h => by simp [jsonBeq] at h
  | .null, .str _, h => by simp [jsonBeq] at h
  | .null, .arr _, h => by simp [jsonBeq] at h
  | .null, .obj _, h => by simp [jsonBeq] at h
  | .bool _, .null, h => by simp [jsonBeq] at h
  | .bool _, .num _, h => by simp [jsonBeq] at h
  | .bool _, .str _, h => by simp [jsonBeq] at h
  | .bool _, .arr _, h => by simp [jsonBeq] at h
  | .bool _, .obj _, h => by simp [jsonBeq] at h
  | .num _, .null, h => by simp [jsonBeq] at h
  | .num _, .bool _, h => by simp [jsonBeq] at h
  | .num _, .str _, h => by simp [jsonBeq] at h
  | .num _, .arr _, h => by simp [jsonBeq] at h
  | .num _, .obj _, h => by simp [jsonBeq] at h
  | .str _, .null, h => by simp [jsonBeq] at h
  | .str _, .bool _, h => by simp [jsonBeq] at h
  | .str _, .num _, h => by simp [jsonBeq] at h
  | .str _, .arr _, h => by simp [jsonBeq] at h
  | .str _, .obj _, h => by simp [jsonBeq] at h
  | .arr _, .null, h => by simp [jsonBeq] at h
  | .arr _, .bool _, h => by simp [jsonBeq] at h
  | .arr _, .num _, h => by simp [jsonBeq] at h
  | .arr _, .str _, h => by simp [jsonBeq] at h
  | .arr _, .obj _, h => by simp [jsonBeq] at h
  | .obj _, .null, h => by simp [jsonBeq] at h
  | .obj _, .bool _, h => by simp [jsonBeq] at h
  | .obj _, .num _, h => by simp [jsonBeq] at h
  | .obj _, .str _, h => by simp [jsonBeq] at h
  | .obj _, .arr _, h => by simp [jsonBeq] at h

theorem eq_of_jsonListBeq : ∀ a b : List Json, jsonListBeq a b = true → a = b
  | [], [], _ => rfl
  | x :: xs, y :: ys, h => by
    simp only [jsonListBeq, Bool.and_eq_true] at h
    rw [eq_of_jsonBeq x y h.1, eq_of_jsonListBeq xs ys h.2]
  | [], _ :: _, h => by simp [jsonListBeq] at h
  | _ :: _, [], h => by simp [jsonListBeq] at h

theorem eq_of_jsonObjBeq : ∀ a b : List (LC × Json), jsonObjBeq a b = true → a = b
  | [], [], _ => rfl
  | (k1, v1) :: xs, (k2, v2) :: ys, h => by
    simp only [jsonObjBeq, Bool.and_eq_true, decide_eq_true_eq] at h
    rw [h.1.1, eq_of_jsonBeq v1 v2 h.1.2, eq_of_jsonObjBeq xs ys h.2]
  | [], _ :: _, h => by simp [jsonObjBeq] at h
  | _ :: _, [], h => by simp [jsonObjBeq] at h

end

instance : DecidableEq Json := fun a b =>
  decidable_of_iff (jsonBeq a b = true)
    ⟨eq_of_jsonBeq a b, fun h => h ▸ jsonBeq_refl a⟩

/-- First-match association lookup (Python `dict.get`; dict keys are unique). -/
def alookup {β : Type} (k : LC) : List (LC × β) → Option β
  | [] => none
  | (k2, v) :: rest => if k2 = k then some v else alookup k rest

/-- Python truthiness of a decoded JSON value. -/
def truthy : Json → Bool
  | .null => false
  | .bool b => b
  | .num n => decide (n ≠ 0)
  | .str s => decide (s ≠ [])
  | .arr xs => decide (xs ≠ [])
  | .obj fs => decide (fs ≠ [])

def natDigitsAux : Nat → Nat → LC
  | 0, _ => []
  | _, 0 => []
  | fuel + 1, n + 1 => natDigitsAux fuel ((n + 1) / 10) ++ [digitCh ((n + 1) % 10)]

def natDigits (n : Nat) : LC := natDigitsAux n n

def natRepr (n : Nat) : LC := if n = 0 then ['0'] else natDigits n

def intRepr (n : Int) : LC :=
  match n with
  | .ofNat m => natRepr m
  | .negSucc m => '-' :: natRepr (m + 1)

def commaJoin : List LC → LC
  | [] => []
  | [x] => x
  | x :: y :: rest => x ++ [',', ' '] ++ commaJoin (y :: rest)

mutual

/-- Python `repr` of a decoded JSON value (numbers modelled as integers;
string escaping refinements not modelled). -/
def pyRepr : Json → LC
  | .null => "None".data
  | .bool true => "True".data
  | .bool false => "False".data
  | .num n => intRepr n
  | .str s => Char.ofNat 39 :: s ++ [Char.ofNat 39]
  | .arr xs => '[' :: commaJoin (pyReprList xs) ++ [']']
  | .obj fs => Char.ofNat 123 :: commaJoin (pyReprObj fs) ++ [Char.ofNat 125]

def pyReprList : List Json → List LC
  | [] => []
  | x :: rest => pyRepr x :: pyReprList rest

def pyReprObj : List (LC × Json) → List LC
  | [] => []
  | (k, v) :: rest =>
    (Char.ofNat 39 :: k ++ [Char.ofNat 39] ++ [':', ' '] ++ pyRepr v) :: pyReprObj rest

end

/-- Python `str` of a decoded JSON value. -/
def pyStr : Json → LC
  | .str s => s
  | j => pyRepr j

/-! ## Python `datetime` model -/

structure PyDateTime where
  year : Nat
  month : Nat
  day : Nat
  hour : Nat
  minute : Nat
  second : Nat
  usec : Nat
deriving DecidableEq

def isLeap (y : Nat) : Bool := y % 4 = 0 && (y % 100 ≠ 0 || y % 400 = 0)

def daysInMonth (y m : Nat) : Nat :=
  if m = 2 then (if isLeap y then 29 else 28)
  else if m = 4 || m = 6 || m = 9 || m = 11 then 30
  else 31

def validDT (d : PyDateTime) : Bool :=
  1 ≤ d.year && d.year ≤ 9999 && 1 ≤ d.month && d.month ≤ 12 &&
  1 ≤ d.day && d.day ≤ daysInMonth d.year d.month &&
  d.hour ≤ 23 && d.minute ≤ 59 && d.second ≤ 59 && d.usec ≤ 999999

/-- The `datetime(...)` constructor: `none` models `ValueError`. -/
def mkDT (y mo da h mi s us : Nat) : Option PyDateTime :=
  let d : PyDateTime := ⟨y, mo, da, h, mi, s, us⟩
  if validDT d then some d else none

/-- Next calendar day; `none` past `datetime.max` (year 9999). -/
def succDay (d : PyDateTime) : Option PyDateTime :=
  if d.day < daysInMonth d.year d.month then some { d with day := d.day + 1 }
  else if d.month < 12 then some { d with month := d.month + 1, day := 1 }
  else if d.year < 9999 then some { d with year := d.year + 1, month := 1, day := 1 }
  else none

/-- Previous calendar day; `none` before `datetime.min` (year 1). -/
def predDay (d : PyDateTime) : Option PyDateTime :=
  if 1 < d.day then some { d with day := d.day - 1 }
  else if 1 < d.month then some { d with month := d.month - 1, day := daysInMonth d.year (d.month - 1) }
  else if 1 < d.year then some { d with year := d.year - 1, month := 12, day := 31 }
  else none

def iterOpt (f : PyDateTime → Option PyDateTime) : Nat → PyDateTime → Option PyDateTime
  | 0, d => some d
  | n + 1, d =>
    match f d with
    | some d2 => iterOpt f n d2
    | none => none

/-- `dt + timedelta(days = n)`; `none` models `OverflowError`. -/
def addDays (d : PyDateTime) : Int → Option PyDateTime
  | .ofNat n => iterOpt succDay n d
  | .negSucc n => iterOpt predDay (n + 1) d

/-! ## `_parse_fhir_date` -/

def isSignCh (c : Char) : Bool := c = '+' || c = '-'

/-- The source's `for i in range(len(value) - 6, 9, -1)` scan for the last
`+`/`-` at a position in `[10, len - 6]`, scanning downward. -/
def findSignDown (v : LC) : Nat → Option Nat
  | 0 => none
  | i + 1 =>
    if i + 1 < 10 then none
    else if isSignCh (v.getD (i + 1) ' ') then some (i + 1)
    else findSignDown v i

/-- Timezone-suffix separation of `_parse_fhir_date`:
returns `(core, suffix)`. -/
def stripTz (value : LC) : LC × LC :=
  if value.getLast? = some 'Z' then (value.dropLast, ['Z'])
  else if hasCh '+' (value.drop 10) || hasCh '-' (value.drop 10) then
    match findSignDown value (value.length - 6) with
    | some i => (value.take i, value.drop i)
    | none => (value, [])
  else (value, [])

/-- Exactly two digits. -/
def parse2 : LC → Option Nat
  | [a, b] => if isDigitCh a && isDigitCh b then some (digitVal a * 10 + digitVal b) else none
  | _ => none

/-- Exactly four digits. -/
def parse4 : LC → Option Nat
  | [a, b, c, d] =>
    if isDigitCh a && isDigitCh b && isDigitCh c && isDigitCh d then
      some (digitVal a * 1000 + digitVal b * 100 + digitVal c * 10 + digitVal d)
    else none
  | _ => none

/-- `strptime(core, "%Y-%m")` on a length-7 string. -/
def parseYM : LC → Option (Nat × Nat)
  | [y1, y2, y3, y4, '-', m1, m2] =>
    match parse4 [y1, y2, y3, y4], parse2 [m1, m2] with
    | some y, some m => some (y, m)
    | _, _ => none
  | _ => none

/-- `strptime(core, "%Y-%m-%d")` on a length-10 string. -/
def parseYMD : LC → Option (Nat × Nat × Nat)
  | [y1, y2, y3, y4, '-', m1, m2, '-', d1, d2] =>
    match parse4 [y1, y2, y3, y4], parse2 [m1, m2], parse2 [d1, d2] with
    | some y, some m, some d => some (y, m, d)
    | _, _, _ => none
  | _ => none

/-- A 1–6 digit fractional-second component, scaled to microseconds. -/
def parseFrac (s : LC) : Option Nat :=
  if 1 ≤ s.length && s.length ≤ 6 && allDigits s then
    some (digitsToNat s * 10 ^ (6 - s.length))
  else none

/-- `HH:MM`, `HH:MM:SS` or `HH:MM:SS.ffffff` time shapes. -/
def parseTime : LC → Option (Nat × Nat × Nat × Nat)
  | h1 :: h2 :: ':' :: m1 :: m2 :: rest =>
    match parse2 [h1, h2], parse2 [m1, m2] with
    | some hh, some mi =>
      match rest with
      | [] => some (hh, mi, 0, 0)
      | ':' :: s1 :: s2 :: rest2 =>
        match parse2 [s1, s2] with
        | some ss =>
          match rest2 with
          | [] => some (hh, mi, ss, 0)
          | '.' :: fr => (parseFrac fr).map (fun us => (hh, mi, ss, us))
          | _ => none
        | none => none
      | _ => none
    | _, _ => none
  | _ => none

/-- `datetime.fromisoformat(core)`, modelled for the extended (dashed,
zero-padded) forms with `T` separator and no timezone left in `core` — the
only shapes the de-identifier's own suffix stripping can feed it. -/
def fromIso (core : LC) : Option PyDateTime :=
  match parseYMD (core.take 10) with
  | none => none
  | some (y, m, d) =>
    match core.drop 10 with
    | [] => mkDT y m d 0 0 0 0
    | 'T' :: t =>
      match parseTime t with
      | some (hh, mi, ss, us) => mkDT y m d hh mi ss us
      | none => none
    | _ => none

/-- Source `_parse_fhir_date(value)`: `(datetime, tz suffix, fractional
precision)`, `none` on any parse failure. -/
def parseFhirDate (value : LC) : Option (PyDateTime × LC × Nat) :=
  let cs := stripTz value
  let frac := fracLenOf cs.1
  let dt? :=
    if cs.1.length = 4 then
      match pyInt cs.1 with
      | some y => if y ≤ 0 then none else mkDT y.toNat 1 1 0 0 0 0
      | none => none
    else if cs.1.length = 7 then
      match parseYM cs.1 with
      | some (y, m) => mkDT y m 1 0 0 0 0
      | none => none
    else if cs.1.length = 10 then
      match parseYMD cs.1 with
      | some (y, m, d) => mkDT y m d 0 0 0 0
      | none => none
    else fromIso cs.1
  dt?.map (fun dt => (dt, cs.2, frac))

/-! ## `_format_fhir_date` and `shift_date` -/

def dateStrDT (d : PyDateTime) : LC := pad4 d.year ++ '-' :: pad2 d.month ++ '-' :: pad2 d.day

def timeStrDT (d : PyDateTime) : LC := pad2 d.hour ++ ':' :: pad2 d.minute ++ ':' :: pad2 d.second

/-- glibc `strftime("%Y")` as CPython 3.9–3.12 emits it on the program's
platforms: the year in decimal with no zero padding
(`datetime(123, 5, 1).strftime("%Y-%m")` is `"123-05"`). -/
def strfY (y : Nat) : LC := natRepr y

/-- Source `_format_fhir_date(original, shifted, suffix, frac_precision)`.
The length-4 branch is the f-string `f"{year:04d}"` (zero-padded) and the
date-time branches are `isoformat` (zero-padded); the length-7 and
length-10 branches are `strftime`, whose `%Y` is unpadded. -/
def formatFhirDate (original : LC) (dt : PyDateTime) (sfx : LC) (frac : Nat) : LC :=
  let len := (rstripZ original).length
  if len = 4 then pad4 dt.year
  else if len = 7 then strfY dt.year ++ '-' :: pad2 dt.month
  else if len = 10 then strfY dt.year ++ '-' :: pad2 dt.month ++ '-' :: pad2 dt.day
  else if 0 < frac then
    let iso := dateStrDT dt ++ 'T' :: timeStrDT dt ++ '.' :: pad6 dt.usec
    (if frac < 6 then pyDropEnd (6 - frac) iso else iso) ++ sfx
  else dateStrDT dt ++ 'T' :: timeStrDT dt ++ sfx

inductive PyErr where
  | typeError
  | attributeError
  | overflowError
deriving DecidableEq

/-- Source `shift_date(value, offset_days, collapse_to_year)`;
`.error .overflowError` models the uncaught `OverflowError` of shifting
past the supported calendar range. -/
def shift_date (value : LC) (offsetDays : Int) (collapseToYear : Bool) : Except PyErr LC :=
  match parseFhirDate value with
  | none => .ok value
  | some (dt, sfx, frac) =>
    if collapseToYear then .ok (pad4 dt.year)
    else
      match addDays dt offsetDays with
      | some shifted => .ok (formatFhirDate value shifted sfx frac)
      | none => .error .overflowError

/-! ## `FHIR_DATE_RE` and the date-key heuristic -/

def tzHM : LC → Bool
  | [a, b, ':', c, d] => isDigitCh a && isDigitCh b && isDigitCh c && isDigitCh d
  | _ => false

def tzTail : LC → Bool
  | [] => true
  | ['Z'] => true
  | '+' :: rest => tzHM rest
  | '-' :: rest => tzHM rest
  | _ => false

def fracTail : LC → Bool
  | '.' :: rest =>
    let ds := rest.takeWhile isDigitCh
    1 ≤ ds.length && ds.length ≤ 6 && tzTail (rest.drop ds.length)
  | rest => tzTail rest

def secTail : LC → Bool
  | ':' :: s1 :: s2 :: rest => isDigitCh s1 && isDigitCh s2 && fracTail rest
  | rest => tzTail rest

/-- `FHIR_DATE_RE.fullmatch`:
`^\d{4}-\d{2}(-\d{2}(T\d{2}:\d{2}(:\d{2}(\.\d{1,6})?)?(Z|[+-]\d{2}:\d{2})?)?)?$`. -/
def fhirDateMatch : LC → Bool
  | y1 :: y2 :: y3 :: y4 :: '-' :: m1 :: m2 :: rest =>
    isDigitCh y1 && isDigitCh y2 && isDigitCh y3 && isDigitCh y4 &&
    isDigitCh m1 && isDigitCh m2 &&
    (match rest with
     | [] => true
     | '-' :: d1 :: d2 :: rest2 =>
       isDigitCh d1 && isDigitCh d2 &&
       (match rest2 with
        | [] => true
        | 'T' :: h1 :: h2 :: ':' :: mi1 :: mi2 :: rest3 =>
          isDigitCh h1 && isDigitCh h2 && isDigitCh mi1 && isDigitCh mi2 && secTail rest3
        | _ => false)
     | _ => false)
  | _ => false

def dateKeySuffixes : List LC := ["date".data, "datetime".data, "instant".data]

/-- `key.lower().endswith(DATE_KEY_SUFFIXES)`. -/
def keyIsDateLike (k : LC) : Bool := dateKeySuffixes.any (fun sfx => sfx.isSuffixOf (lowerAscii k))

/-- The date heuristic of `recursively_deidentify`. -/
def dateTrigger (k : LC) (s : LC) : Bool := keyIsDateLike k || fhirDateMatch s

/-! ## Policy table -/

abbrev Policy := List (LC × List LC)

def kIdentifier : LC := "identifier".data

def kResourceType : LC := "resourceType".data

def kBirthDate : LC := "birthDate".data

def kSystem : LC := "system".data

def kValue : LC := "value".data

def kSubject : LC := "subject".data

def kPatient : LC := "patient".data

def kReference : LC := "reference".data

def kId : LC := "id".data

def tagStar : LC := "*".data

/-- The built-in `PHI_POLICY` table. -/
def PHI_POLICY : Policy :=
  [("Patient".data,
    [kIdentifier, "name".data, "telecom".data, "address".data, "photo".data, kBirthDate,
     "contact".data, "communication".data, "multipleBirthBoolean".data,
     "multipleBirthInteger".data, "generalPractitioner".data, "managingOrganization".data,
     "link".data]),
   ("Practitioner".data, [kIdentifier, "name".data, "telecom".data, "address".data, "photo".data]),
   ("PractitionerRole".data, ["telecom".data, "phone".data, "address".data]),
   ("Organization".data, [kIdentifier, "telecom".data, "address".data]),
   ("Endpoint".data, ["address".data]),
   ("Device".data, [kIdentifier, "udiCarrier".data]),
   ("Encounter".data, [kIdentifier, "location".data]),
   ("Location".data, [kIdentifier, "address".data, "telecom".data]),
   ("Claim".data, [kIdentifier]),
   ("Observation".data, [kIdentifier]),
   ("Condition".data, [kIdentifier]),
   ("MedicationRequest".data, [kIdentifier]),
   ("ImagingStudy".data, [kIdentifier]),
   (tagStar, [kIdentifier])]

/-- `HASHED_IDENTIFIER_SYSTEMS`. -/
def hashedIdentifierSystems : List LC :=
  ["http://hospital.example.org/mrn".data, "urn:system:mrn".data]

/-- Python `list.remove`: delete the first occurrence. -/
def eraseFirst (k : LC) : List LC → List LC
  | [] => []
  | x :: rest => if x = k then rest else x :: eraseFirst k rest

/-- The policy-resolution block at the top of `recursively_deidentify`:
`tag = none` covers both a missing `resourceType` and one that is no string
(such keys never hit the table's string keys). -/
def phiFieldsFor (policy : Policy) (tag : Option LC) (safeHarbor : Bool) : List LC :=
  let base := match tag with
    | some t => (alookup t policy).getD []
    | none => []
  let fields :=
    if tag = some tagStar then base
    else base ++ (((alookup tagStar policy).getD []).filter (fun f => f ∉ base))
  if safeHarbor ∧ kBirthDate ∈ fields then eraseFirst kBirthDate fields else fields

/-! ## Identifier pseudonymisation -/

/-- Source `pseudonymise_identifier(identifier, salt)`: the returned dict as a
field list (`[]` is the empty dict).  `identifier.get("value") is None`
covers both a missing key and an explicit JSON null. -/
def pseudonymise_identifier (identifier : List (LC × Json)) (salt : LC) : List (LC × Json) :=
  match alookup kValue identifier with
  | none => []
  | some v =>
    if v = .null then []
    else
      [(kValue, Json.str (sha256_hash (pyStr v) salt))] ++
        (match alookup kSystem identifier with
         | some sv => [(kSystem, sv)]
         | none => [])

/-- Is this `system` value retained by `system and system in
HASHED_IDENTIFIER_SYSTEMS`? (Only truthy strings can be members.) -/
def isAllowedSystem : Json → Bool
  | .str s => hashedIdentifierSystems.any (fun t => t = s)
  | _ => false

/-- Python set membership raises `TypeError` on dicts and lists. -/
def isUnhashable : Json → Bool
  | .obj _ => true
  | .arr _ => true
  | _ => false

/-- The body of the identifier loop of `recursively_deidentify` for one
(dict) element: `.ok (some m)` appends the masked identifier, `.ok none`
drops the element, `.error` models the exceptions CPython would raise
(set membership of an unhashable `system` value). -/
def keepStep (salt : LC) (fs : List (LC × Json)) : Except PyErr (Option Json) :=
  let sys := (alookup kSystem fs).getD .null
  if truthy sys then
    if isUnhashable sys then .error .typeError
    else if isAllowedSystem sys then
      let m := pseudonymise_identifier fs salt
      .ok (if m.isEmpty then none else some (.obj m))
    else .ok none
  else .ok none

/-- The identifier loop of `recursively_deidentify`: hash-or-drop each
element in order; a non-dict element is the `AttributeError` of
`ident.get("system")`. -/
def keepIdentifiers (salt : LC) : List Json → Except PyErr (List Json)
  | [] => .ok []
  | e :: rest =>
    match e with
    | .obj fs =>
      match keepStep salt fs with
      | .error er => .error er
      | .ok r =>
        match keepIdentifiers salt rest with
        | .ok ks =>
          .ok (match r with
            | some j => j :: ks
            | none => ks)
        | .error er => .error er
    | _ => .error .attributeError

/-- The safe-harbor age-binning block: `int(shifted[:4])`, compare with the
current year, and replace with `"1900"` at age ≥ 90. -/
def binAge (todayYear : Nat) (sv : LC) : LC :=
  match pyInt (sv.take 4) with
  | some y => if (90 : Int) ≤ (todayYear : Int) - y then "1900".data else sv
  | none => sv

/-! ## `recursively_deidentify`

The traversal carries the merged policy table and the current year (the
value of `datetime.date.today().year`) as explicit parameters; exceptions
escaping the Python function become `.error`. -/

/-- The strip-branch of the field loop (`key in phi_fields`): hash-or-drop an
`identifier` field, omit every other stripped field. Non-recursive. -/
def stripStep (salt : LC) (k : LC) (v : Json) : Except PyErr (Option Json) :=
  if k = kIdentifier then
    let elems := match v with
      | .arr xs => xs
      | _ => [v]
    match keepIdentifiers salt elems with
    | .error er => .error er
    | .ok kept =>
      if kept.isEmpty then .ok none
      else
        match v with
        | .arr _ => .ok (some (.arr kept))
        | _ => .ok (some (kept.headD .null))
  else .ok none

/-- The date-shift branch of the field loop: `some r` when the value is a
string, the heuristic fires and the parse succeeds (so the loop takes the
`continue`); `none` when control falls through to the generic recursion. -/
def dateStep (off : Int) (collapse sh : Bool) (today : Nat) (k : LC) (v : Json) :
    Option (Except PyErr (Option Json)) :=
  match v with
  | .str s =>
    if dateTrigger k s then
      match parseFhirDate s with
      | some _ =>
        some (match shift_date s off collapse with
          | .error er => .error er
          | .ok sv => .ok (some (.str (if sh ∧ k = kBirthDate then binAge today sv else sv))))
      | none => none
    else none
  | _ => none

mutual

def recursively_deidentify (policy : Policy) (salt : LC) (off : Int)
    (collapse sh : Bool) (today : Nat) : Json → Except PyErr Json
  | .obj fs =>
    match alookup kResourceType fs with
    | some (.obj _) => .error .typeError
    | some (.arr _) => .error .typeError
    | rt =>
      let tag : Option LC := match rt with
        | some (.str s) => some s
        | _ => none
      match deidFields policy salt off collapse sh today (phiFieldsFor policy tag sh) fs with
      | .ok out => .ok (.obj out)
      | .error er => .error er
  | .arr xs =>
    match deidList policy salt off collapse sh today xs with
    | .ok out => .ok (.arr out)
    | .error er => .error er
  | v => .ok v

def deidFields (policy : Policy) (salt : LC) (off : Int)
    (collapse sh : Bool) (today : Nat) (phi : List LC) :
    List (LC × Json) → Except PyErr (List (LC × Json))
  | [] => .ok []
  | (k, v) :: rest =>
    let step : Except PyErr (Option Json) :=
      if k ∈ phi then stripStep salt k v
      else
        match dateStep off collapse sh today k v with
        | some r => r
        | none =>
          match recursively_deidentify policy salt off collapse sh today v with
          | .ok v2 => .ok (some v2)
          | .error er => .error er
    match step with
    | .error er => .error er
    | .ok r =>
      match deidFields policy salt off collapse sh today phi rest with
      | .ok out =>
        match r with
        | some v2 => .ok ((k, v2) :: out)
        | none => .ok out
      | .error er => .error er

def deidList (policy : Policy) (salt : LC) (off : Int)
    (collapse sh : Bool) (today : Nat) : List Json → Except PyErr (List Json)
  | [] => .ok []
  | x :: rest =>
    match recursively_deidentify policy salt off collapse sh today x with
    | .ok y =>
      match deidList policy salt off collapse sh today rest with
      | .ok ys => .ok (y :: ys)
      | .error er => .error er
    | .error er => .error er

end

/-- One iteration of the field loop of `recursively_deidentify`:
`.ok none` means the key is omitted from the output. -/
def deidEntry (policy : Policy) (salt : LC) (off : Int)
    (collapse sh : Bool) (today : Nat) (phi : List LC) (k : LC) (v : Json) :
    Except PyErr (Option Json) :=
  if k ∈ phi then stripStep salt k v
  else
    match dateStep off collapse sh today k v with
    | some r => r
    | none =>
      match recursively_deidentify policy salt off collapse sh today v with
      | .ok v2 => .ok (some v2)
      | .error er => .error er

theorem deidFields_cons (policy : Policy) (salt : LC) (off : Int)
    (collapse sh : Bool) (today : Nat) (phi : List LC) (k : LC) (v : Json)
    (rest : List (LC × Json)) :
    deidFields policy salt off collapse sh today phi ((k, v) :: rest) =
      match deidEntry policy salt off collapse sh today phi k v with
      | .error er => .error er
      | .ok r =>
        match deidFields policy salt off collapse sh today phi rest with
        | .ok out =>
          match r with
          | some v2 => .ok ((k, v2) :: out)
          | none => .ok out
        | .error er => .error er := rfl

/-! ## `deidentify_resource` -/

/-- The subject-identifier extraction block of `deidentify_resource`
(the value Python binds to `patient_id`; it may be any JSON value). -/
def patientIdOf (fs : List (LC × Json)) : Json :=
  let isPatient : Bool := match alookup kResourceType fs with
    | some (.str s) => s = "Patient".data
    | _ => false
  if isPatient then (alookup kId fs).getD (.str [])
  else
    let s1 := (alookup kSubject fs).getD .null
    let s2 := if truthy s1 then s1 else (alookup kPatient fs).getD .null
    let subj := if truthy s2 then s2 else .str []
    match subj with
    | .obj g => (alookup kReference g).getD (.str [])
    | .str s => .str s
    | _ => .str []

/-- Source `deidentify_resource(resource, salt, shift_days, safe_harbor)`.
`today` models `datetime.date.today().year`; a non-dict resource or a
non-string subject id fed to `deterministic_offset` is the corresponding
CPython exception. -/
def deidentify_resource (policy : Policy) (resource : Json) (salt : LC)
    (shiftDays : Option Int) (sh : Bool) (today : Nat) : Except PyErr Json :=
  match resource with
  | .obj fs =>
    let offc : Except PyErr (Int × Bool) :=
      if sh then .ok (0, true)
      else
        match shiftDays with
        | some n => .ok (n, false)
        | none =>
          match patientIdOf fs with
          | .str pid => .ok (deterministic_offset salt pid, false)
          | _ => .error .typeError
    match offc with
    | .ok oc => recursively_deidentify policy salt oc.1 oc.2 sh today (.obj fs)
    | .error er => .error er
  | _ => .error .attributeError

deriving instance DecidableEq for Except

/-! ## Digit and pad lemmas -/

theorem toNat_digitCh {n : Nat} (h : n < 10) : (digitCh n).toNat = 48 + n := by
  interval_cases n <;> decide

theorem isDigitCh_digitCh {n : Nat} (h : n < 10) : isDigitCh (digitCh n) = true := by
  interval_cases n <;> decide

theorem digitVal_digitCh {n : Nat} (h : n < 10) : digitVal (digitCh n) = n := by
  interval_cases n <;> decide

theorem digitCh_digitVal {c : Char} (h : isDigitCh c = true) : digitCh (digitVal c) = c := by
  simp only [isDigitCh, Bool.and_eq_true, decide_eq_true_eq] at h
  have h1 : 48 ≤ c.toNat := h.1
  have h2 : c.toNat ≤ 57 := h.2
  have : 48 + digitVal c = c.toNat := by simp only [digitVal]; omega
  simp only [digitCh, this]
  exact Char.ofNat_toNat c

theorem digitVal_lt {c : Char} (h : isDigitCh c = true) : digitVal c < 10 := by
  simp only [isDigitCh, Bool.and_eq_true, decide_eq_true_eq] at h
  have h2 : c.toNat ≤ 57 := h.2
  simp only [digitVal]; omega

theorem digitCh_ne_of_ne {n : Nat} (h : n < 10) (c : Char)
    (hc : c.toNat < 48 ∨ 57 < c.toNat) : digitCh n ≠ c := by
  intro he
  have := toNat_digitCh h
  rw [he] at this
  omega

theorem pad2_length (n : Nat) : (pad2 n).length = 2 := rfl

theorem pad4_length (n : Nat) : (pad4 n).length = 4 := rfl

theorem pad6_length (n : Nat) : (pad6 n).length = 6 := rfl

theorem allDigits_pad2 (n : Nat) : allDigits (pad2 n) = true := by
  simp [allDigits, pad2, isDigitCh_digitCh (Nat.mod_lt _ (by decide))]

theorem allDigits_pad4 (n : Nat) : allDigits (pad4 n) = true := by
  simp [allDigits, pad4, isDigitCh_digitCh (Nat.mod_lt _ (by decide))]

theorem allDigits_pad6 (n : Nat) : allDigits (pad6 n) = true := by
  simp [allDigits, pad6, isDigitCh_digitCh (Nat.mod_lt _ (by decide))]

theorem parse2_pad2 {n : Nat} (h : n < 100) : parse2 (pad2 n) = some n := by
  have h1 : n / 10 % 10 < 10 := Nat.mod_lt _ (by decide)
  have h2 : n % 10 < 10 := Nat.mod_lt _ (by decide)
  simp only [pad2, parse2, isDigitCh_digitCh h1, isDigitCh_digitCh h2,
    digitVal_digitCh h1, digitVal_digitCh h2, Bool.and_self, if_true]
  congr 1
  omega

theorem parse4_pad4 {n : Nat} (h : n < 10000) : parse4 (pad4 n) = some n := by
  have h1 : n / 1000 % 10 < 10 := Nat.mod_lt _ (by decide)
  have h2 : n / 100 % 10 < 10 := Nat.mod_lt _ (by decide)
  have h3 : n / 10 % 10 < 10 := Nat.mod_lt _ (by decide)
  have h4 : n % 10 < 10 := Nat.mod_lt _ (by decide)
  simp only [pad4, parse4, isDigitCh_digitCh h1, isDigitCh_digitCh h2, isDigitCh_digitCh h3,
    isDigitCh_digitCh h4, digitVal_digitCh h1, digitVal_digitCh h2, digitVal_digitCh h3,
    digitVal_digitCh h4, Bool.and_self, if_true]
  congr 1
  omega

theorem digitsToNatGo_acc (s : LC) (acc : Nat) :
    digitsToNatGo s acc = acc * 10 ^ s.length + digitsToNatGo s 0 := by
  induction s generalizing acc with
  | nil => simp [digitsToNatGo]
  | cons c cs ih =>
    simp only [digitsToNatGo]
    rw [ih (acc * 10 + digitVal c), ih (0 * 10 + digitVal c)]
    simp only [List.length_cons, pow_succ]
    ring

theorem digitsToNat_cons (c : Char) (cs : LC) :
    digitsToNat (c :: cs) = digitVal c * 10 ^ cs.length + digitsToNat cs := by
  simp [digitsToNat, digitsToNatGo, digitsToNatGo_acc cs (digitVal c)]

theorem digitsToNat_append (a b : LC) :
    digitsToNat (a ++ b) = digitsToNat a * 10 ^ b.length + digitsToNat b := by
  induction a with
  | nil => simp [digitsToNat, digitsToNatGo]
  | cons c cs ih =>
    rw [List.cons_append, digitsToNat_cons, digitsToNat_cons, ih]
    simp [List.length_append, pow_add]
    ring

theorem digitsToNat_lt {s : LC} (h : allDigits s = true) : digitsToNat s < 10 ^ s.length := by
  induction s with
  | nil => simp [digitsToNat, digitsToNatGo]
  | cons c cs ih =>
    simp only [allDigits, List.all_cons, Bool.and_eq_true] at h
    have hc := digitVal_lt h.1
    have hcs := ih h.2
    rw [digitsToNat_cons]
    simp only [List.length_cons, pow_succ]
    calc digitVal c * 10 ^ cs.length + digitsToNat cs
        ≤ 9 * 10 ^ cs.length + digitsToNat cs := by
          have : digitVal c ≤ 9 := by omega
          exact Nat.add_le_add_right (Nat.mul_le_mul_right _ this) _
      _ < 9 * 10 ^ cs.length + 10 ^ cs.length := by omega
      _ = 10 ^ cs.length * 10 := by ring

theorem digits_inj {a b : LC} (ha : allDigits a = true) (hb : allDigits b = true)
    (hlen : a.length = b.length) (hval : digitsToNat a = digitsToNat b) : a = b := by
  induction a generalizing b with
  | nil =>
    cases b with
    | nil => rfl
    | cons _ _ => simp at hlen
  | cons c cs ih =>
    cases b with
    | nil => simp at hlen
    | cons d ds =>
      simp only [allDigits, List.all_cons, Bool.and_eq_true] at ha hb
      simp only [List.length_cons, Nat.succ_inj] at hlen
      rw [digitsToNat_cons, digitsToNat_cons, hlen] at hval
      have hca := digitsToNat_lt (show allDigits cs = true from ha.2)
      have hcb := digitsToNat_lt (show allDigits ds = true from hb.2)
      rw [hlen] at hca
      have hdv : digitVal c = digitVal d := by
        by_contra hne
        rcases Nat.lt_or_ge (digitVal c) (digitVal d) with hlt | hge
        · nlinarith [hca, hcb]
        · have : digitVal d < digitVal c := by omega
          nlinarith [hca, hcb]
      have hch : c = d := by
        rw [← digitCh_digitVal ha.1, ← digitCh_digitVal hb.1, hdv]
      subst hch
      have : digitsToNat cs = digitsToNat ds := by omega
      rw [ih ha.2 hb.2 hlen this]

theorem digitsToNat_pad2 {n : Nat} (h : n < 100) : digitsToNat (pad2 n) = n := by
  have h1 : n / 10 % 10 < 10 := Nat.mod_lt _ (by decide)
  have h2 : n % 10 < 10 := Nat.mod_lt _ (by decide)
  simp only [pad2, digitsToNat, digitsToNatGo, digitVal_digitCh h1, digitVal_digitCh h2]
  omega

theorem digitsToNat_pad4 {n : Nat} (h : n < 10000) : digitsToNat (pad4 n) = n := by
  have h1 : n / 1000 % 10 < 10 := Nat.mod_lt _ (by decide)
  have h2 : n / 100 % 10 < 10 := Nat.mod_lt _ (by decide)
  have h3 : n / 10 % 10 < 10 := Nat.mod_lt _ (by decide)
  have h4 : n % 10 < 10 := Nat.mod_lt _ (by decide)
  simp only [pad4, digitsToNat, digitsToNatGo, digitVal_digitCh h1, digitVal_digitCh h2,
    digitVal_digitCh h3, digitVal_digitCh h4]
  omega

theorem digitsToNat_pad6 {n : Nat} (h : n < 1000000) : digitsToNat (pad6 n) = n := by
  have h1 : n / 100000 % 10 < 10 := Nat.mod_lt _ (by decide)
  have h2 : n / 10000 % 10 < 10 := Nat.mod_lt _ (by decide)
  have h3 : n / 1000 % 10 < 10 := Nat.mod_lt _ (by decide)
  have h4 : n / 100 % 10 < 10 := Nat.mod_lt _ (by decide)
  have h5 : n / 10 % 10 < 10 := Nat.mod_lt _ (by decide)
  have h6 : n % 10 < 10 := Nat.mod_lt _ (by decide)
  simp only [pad6, digitsToNat, digitsToNatGo, digitVal_digitCh h1, digitVal_digitCh h2,
    digitVal_digitCh h3, digitVal_digitCh h4, digitVal_digitCh h5, digitVal_digitCh h6]
  omega

/-- The digit expansion of a scaled fraction: `pad6 (v * 10^(6-k))` is the
`k` fraction digits followed by `6-k` zeros. -/
theorem pad6_scaled {ds : LC} (hd : allDigits ds = true) (hlen1 : 1 ≤ ds.length)
    (hlen6 : ds.length ≤ 6) :
    pad6 (digitsToNat ds * 10 ^ (6 - ds.length)) = ds ++ List.replicate (6 - ds.length) '0' := by
  have hzd : ∀ n, allDigits (List.replicate n '0') = true := by
    intro n
    induction n with
    | zero => rfl
    | succ n ih =>
      simpa only [allDigits, List.replicate_succ, List.all_cons, Bool.and_eq_true] using
        ⟨by decide, ih⟩
  have hlt := digitsToNat_lt hd
  apply digits_inj (allDigits_pad6 _)
  · have := hzd (6 - ds.length)
    simp only [allDigits, List.all_append] at this hd ⊢
    rw [hd, this]; rfl
  · simp [pad6_length, List.length_append, List.length_replicate]
    omega
  · rw [digitsToNat_pad6, digitsToNat_append]
    · have hrep : ∀ n, digitsToNat (List.replicate n '0') = 0 := by
        intro n
        induction n with
        | zero => rfl
        | succ n ih =>
          rw [List.replicate_succ, digitsToNat_cons, ih]
          have h0 : digitVal '0' = 0 := by decide
          rw [h0]
          ring
      rw [hrep, List.length_replicate]
      ring
    · have h10 : (0 : Nat) < 10 ^ (6 - ds.length) := Nat.pos_pow_of_pos _ (by decide)
      have hmul : digitsToNat ds * 10 ^ (6 - ds.length) < 10 ^ ds.length * 10 ^ (6 - ds.length) :=
        (Nat.mul_lt_mul_right h10).mpr hlt
      have hpow : 10 ^ ds.length * 10 ^ (6 - ds.length) = 1000000 := by
        rw [← pow_add]
        have : ds.length + (6 - ds.length) = 6 := by omega
        rw [this]
        norm_num
      rw [hpow] at hmul
      exact hmul

/-! ## The 4.1 precision grammar, as rendered shapes -/

inductive TzS where
  | z
  | pl (hh mm : Nat)
  | mi (hh mm : Nat)
deriving DecidableEq

def renderTz : TzS → LC
  | .z => ['Z']
  | .pl hh mm => '+' :: pad2 hh ++ ':' :: pad2 mm
  | .mi hh mm => '-' :: pad2 hh ++ ':' :: pad2 mm

def validTz : TzS → Bool
  | .z => true
  | .pl hh mm => hh < 100 && mm < 100
  | .mi hh mm => hh < 100 && mm < 100

/-- The four precision shapes of the grammar.  In the `dt` shape the
seconds component is present; the fraction is a literal digit string of
length 1–6. -/
inductive FShape where
  | year (y : Nat)
  | ym (y m : Nat)
  | ymd (y m d : Nat)
  | dt (y m d hh mi ss : Nat) (frac : Option LC) (tz : Option TzS)
deriving DecidableEq

def validShape : FShape → Bool
  | .year y => y < 10000
  | .ym y m => y < 10000 && m < 100
  | .ymd y m d => y < 10000 && m < 100 && d < 100
  | .dt y m d hh mi ss frac tz =>
    y < 10000 && m < 100 && d < 100 && hh < 100 && mi < 100 && ss < 100 &&
    (match frac with
     | none => true
     | some ds => 1 ≤ ds.length && ds.length ≤ 6 && allDigits ds) &&
    (match tz with
     | none => true
     | some t => validTz t)

def dateRender (y m d : Nat) : LC := pad4 y ++ '-' :: pad2 m ++ '-' :: pad2 d

def timeRender (hh mi ss : Nat) : LC := pad2 hh ++ ':' :: pad2 mi ++ ':' :: pad2 ss

def fracRender : Option LC → LC
  | none => []
  | some ds => '.' :: ds

def tzRender : Option TzS → LC
  | none => []
  | some t => renderTz t

def render : FShape → LC
  | .year y => pad4 y
  | .ym y m => pad4 y ++ '-' :: pad2 m
  | .ymd y m d => dateRender y m d
  | .dt y m d hh mi ss frac tz =>
    dateRender y m d ++ 'T' :: timeRender hh mi ss ++ fracRender frac ++ tzRender tz

/-! ## Character-class and render-structure lemmas -/

theorem isDigit_ne {c d : Char} (h : isDigitCh c = true)
    (hd : d.toNat < 48 ∨ 57 < d.toNat) : c ≠ d := by
  simp only [isDigitCh, Bool.and_eq_true, decide_eq_true_eq] at h
  have h1 : 48 ≤ c.toNat := h.1
  have h2 : c.toNat ≤ 57 := h.2
  intro he
  subst he
  rcases hd with hd | hd <;> omega

theorem mem_pad2 {x : Char} {n : Nat} (h : x ∈ pad2 n) : isDigitCh x = true := by
  simp only [pad2, List.mem_cons, List.mem_singleton, List.not_mem_nil, or_false] at h
  rcases h with h | h <;> subst h <;> exact isDigitCh_digitCh (Nat.mod_lt _ (by decide))

theorem mem_pad4 {x : Char} {n : Nat} (h : x ∈ pad4 n) : isDigitCh x = true := by
  simp only [pad4, List.mem_cons, List.mem_singleton, List.not_mem_nil, or_false] at h
  rcases h with h | h | h | h <;> subst h <;> exact isDigitCh_digitCh (Nat.mod_lt _ (by decide))

theorem mem_pad6 {x : Char} {n : Nat} (h : x ∈ pad6 n) : isDigitCh x = true := by
  simp only [pad6, List.mem_cons, List.mem_singleton, List.not_mem_nil, or_false] at h
  rcases h with h | h | h | h | h | h <;> subst h <;>
    exact isDigitCh_digitCh (Nat.mod_lt _ (by decide))

theorem mem_dateRender {x : Char} {y m d : Nat} (h : x ∈ dateRender y m d) :
    isDigitCh x = true ∨ x = '-' := by
  simp only [dateRender, List.mem_append, List.mem_cons] at h
  rcases h with (h | h | h) | h | h
  · exact Or.inl (mem_pad4 h)
  · exact Or.inr h
  · exact Or.inl (mem_pad2 h)
  · exact Or.inr h
  · exact Or.inl (mem_pad2 h)

theorem mem_timeRender {x : Char} {hh mi ss : Nat} (h : x ∈ timeRender hh mi ss) :
    isDigitCh x = true ∨ x = ':' := by
  simp only [timeRender, List.mem_append, List.mem_cons] at h
  rcases h with (h | h | h) | h | h
  · exact Or.inl (mem_pad2 h)
  · exact Or.inr h
  · exact Or.inl (mem_pad2 h)
  · exact Or.inr h
  · exact Or.inl (mem_pad2 h)

theorem mem_fracRender {x : Char} {frac : Option LC}
    (hfr : ∀ ds, frac = some ds → allDigits ds = true)
    (h : x ∈ fracRender frac) : isDigitCh x = true ∨ x = '.' := by
  cases frac with
  | none => simp [fracRender] at h
  | some ds =>
    simp only [fracRender, List.mem_cons] at h
    rcases h with h | h
    · exact Or.inr h
    · have := hfr ds rfl
      simp only [allDigits, List.all_eq_true] at this
      exact Or.inl (this x h)

theorem hasCh_false_of {c : Char} {l : LC} (h : ∀ x ∈ l, x ≠ c) : hasCh c l = false := by
  simp only [hasCh, List.any_eq_false, decide_eq_true_eq]
  intro x hx
  simpa using h x hx

theorem dateRender_length (y m d : Nat) : (dateRender y m d).length = 10 := rfl

theorem timeRender_length (hh mi ss : Nat) : (timeRender hh mi ss).length = 8 := rfl

theorem getD_append_len (a b : LC) (d : Char) : (a ++ b).getD a.length d = b.getD 0 d := by
  induction a with
  | nil => rfl
  | cons c cs ih => simpa [List.getD_cons_succ] using ih

theorem findSignDown_hit (v : LC) (i : Nat) (h10 : 10 ≤ i)
    (hs : isSignCh (v.getD i ' ') = true) : findSignDown v i = some i := by
  match i, h10 with
  | k + 1, h10 =>
    rw [findSignDown]
    rw [if_neg (by omega), if_pos hs]

theorem rstripZ_of_ne {l : LC} {c : Char} (hl : l.getLast? = some c) (hc : c ≠ 'Z') :
    rstripZ l = l := by
  rw [← List.head?_reverse] at hl
  cases hrev : l.reverse with
  | nil => rw [hrev] at hl; simp at hl
  | cons c2 t =>
    rw [hrev] at hl
    simp only [List.head?_cons, Option.some_inj] at hl
    subst hl
    have hstep : rstripZ l = ((c2 :: t).dropWhile (fun x => x = 'Z')).reverse := by
      rw [rstripZ, hrev]
    rw [hstep, List.dropWhile_cons, if_neg (by simpa using hc), ← hrev, List.reverse_reverse]

theorem rstripZ_concat_z {l : LC} {c : Char} (hl : l.getLast? = some c) (hc : c ≠ 'Z') :
    rstripZ (l ++ ['Z']) = l := by
  rw [← List.head?_reverse] at hl
  cases hrev : l.reverse with
  | nil => rw [hrev] at hl; simp at hl
  | cons c2 t =>
    rw [hrev] at hl
    simp only [List.head?_cons, Option.some_inj] at hl
    subst hl
    have hstep : rstripZ (l ++ ['Z']) = (('Z' :: (c2 :: t)).dropWhile (fun x => x = 'Z')).reverse := by
      rw [rstripZ, List.reverse_append, hrev]
      rfl
    rw [hstep, List.dropWhile_cons, if_pos (by simp), List.dropWhile_cons,
      if_neg (by simpa using hc), ← hrev, List.reverse_reverse]

theorem stripTz_z (core : LC) : stripTz (core ++ ['Z']) = (core, ['Z']) := by
  simp [stripTz]

theorem stripTz_plain (v : LC) (hlast : v.getLast? ≠ some 'Z')
    (hplus : hasCh '+' (v.drop 10) = false) (hminus : hasCh '-' (v.drop 10) = false) :
    stripTz v = (v, []) := by
  rw [stripTz, if_neg hlast]
  rw [hplus, hminus]
  simp

theorem stripTz_sign (core tzR : LC) (hlen : 10 ≤ core.length)
    (hsign : isSignCh (tzR.getD 0 ' ') = true) (htzlen : tzR.length = 6)
    (hlast : (core ++ tzR).getLast? ≠ some 'Z')
    (hor : (hasCh '+' ((core ++ tzR).drop 10) || hasCh '-' ((core ++ tzR).drop 10)) = true) :
    stripTz (core ++ tzR) = (core, tzR) := by
  rw [stripTz, if_neg hlast]
  rw [hor]
  have hvl : (core ++ tzR).length - 6 = core.length := by
    simp [List.length_append, htzlen]
  have hgd : (core ++ tzR).getD core.length ' ' = tzR.getD 0 ' ' := getD_append_len core tzR ' '
  rw [if_pos rfl, hvl, findSignDown_hit _ _ hlen (by rw [hgd]; exact hsign)]
  simp [List.take_left, List.drop_left]

theorem pyInt_digits {s : LC} (hd : allDigits s = true) (hne : s ≠ []) :
    pyInt s = some (digitsToNat s : Int) := by
  cases s with
  | nil => exact absurd rfl hne
  | cons c rest =>
    have hc : isDigitCh c = true := by
      simp only [allDigits, List.all_cons, Bool.and_eq_true] at hd
      exact hd.1
    simp only [pyInt]
    rw [if_neg (isDigit_ne hc (by decide)), if_pos hd]

theorem takeWhile_all {p : Char → Bool} {l : LC} (h : ∀ x ∈ l, p x = true) :
    l.takeWhile p = l := by
  induction l with
  | nil => rfl
  | cons c cs ih =>
    rw [List.takeWhile_cons, if_pos (h c (List.mem_cons_self c cs))]
    rw [ih (fun x hx => h x (List.mem_cons_of_mem c hx))]

theorem afterDot_none {l : LC} (h : ∀ x ∈ l, x ≠ '.') : afterDot l = none := by
  induction l with
  | nil => rfl
  | cons c cs ih =>
    simp only [afterDot]
    rw [if_neg (h c (List.mem_cons_self c cs))]
    exact ih (fun x hx => h x (List.mem_cons_of_mem c hx))

theorem afterDot_concat {pre ds : LC} (h : ∀ x ∈ pre, x ≠ '.') :
    afterDot (pre ++ '.' :: ds) = some (ds.takeWhile (fun x => x ≠ '.')) := by
  induction pre with
  | nil => simp [afterDot]
  | cons c cs ih =>
    simp only [List.cons_append, afterDot]
    rw [if_neg (h c (List.mem_cons_self c cs))]
    exact ih (fun x hx => h x (List.mem_cons_of_mem c hx))

theorem fracLenOf_noDot {l : LC} (h : ∀ x ∈ l, x ≠ '.') : fracLenOf l = 0 := by
  simp [fracLenOf, afterDot_none h]

theorem fracLenOf_concat {pre ds : LC} (hpre : ∀ x ∈ pre, x ≠ '.')
    (hds : allDigits ds = true) : fracLenOf (pre ++ '.' :: ds) = ds.length := by
  rw [fracLenOf, afterDot_concat hpre]
  have : ds.takeWhile (fun x => (x ≠ '.' : Bool)) = ds := by
    apply takeWhile_all
    intro x hx
    simp only [allDigits, List.all_eq_true] at hds
    simpa using isDigit_ne (hds x hx) (by decide)
  rw [this]

theorem parseFrac_valid {ds : LC} (h1 : 1 ≤ ds.length) (h6 : ds.length ≤ 6)
    (hd : allDigits ds = true) :
    parseFrac ds = some (digitsToNat ds * 10 ^ (6 - ds.length)) := by
  simp [parseFrac, h1, h6, hd]

theorem parseYM_pad (y m : Nat) :
    parseYM (pad4 y ++ '-' :: pad2 m) =
      match parse4 (pad4 y), parse2 (pad2 m) with
      | some yy, some mm => some (yy, mm)
      | _, _ => none := rfl

theorem parseYMD_pad (y m d : Nat) :
    parseYMD (dateRender y m d) =
      match parse4 (pad4 y), parse2 (pad2 m), parse2 (pad2 d) with
      | some yy, some mm, some dd => some (yy, mm, dd)
      | _, _, _ => none := rfl

theorem parseTime_pad (hh mi ss : Nat) (tail : LC) :
    parseTime (timeRender hh mi ss ++ tail) =
      match parse2 (pad2 hh), parse2 (pad2 mi) with
      | some a, some b =>
        match parse2 (pad2 ss) with
        | some c =>
          match tail with
          | [] => some (a, b, c, 0)
          | '.' :: fr => (parseFrac fr).map (fun us => (a, b, c, us))
          | _ => none
        | none => none
      | _, _ => none := rfl

theorem fromIso_pad (y m d hh mi ss : Nat) (tail : LC) :
    fromIso (dateRender y m d ++ 'T' :: (timeRender hh mi ss ++ tail)) =
      match parseYMD (dateRender y m d) with
      | none => none
      | some (a, b, c) =>
        match parseTime (timeRender hh mi ss ++ tail) with
        | some (t1, t2, t3, t4) => mkDT a b c t1 t2 t3 t4
        | none => none := by
  have h10 : (dateRender y m d ++ 'T' :: (timeRender hh mi ss ++ tail)).take 10 =
      dateRender y m d := by
    have := List.take_left (dateRender y m d) ('T' :: (timeRender hh mi ss ++ tail))
    rwa [dateRender_length] at this
  have hd10 : (dateRender y m d ++ 'T' :: (timeRender hh mi ss ++ tail)).drop 10 =
      'T' :: (timeRender hh mi ss ++ tail) := by
    have := List.drop_left (dateRender y m d) ('T' :: (timeRender hh mi ss ++ tail))
    rwa [dateRender_length] at this
  rw [fromIso, h10, hd10]
  cases parseYMD (dateRender y m d) with
  | none => rfl
  | some v => rfl

theorem renderTz_getD_pl (hh mm : Nat) : isSignCh ((renderTz (.pl hh mm)).getD 0 ' ') = true := rfl

theorem renderTz_getD_mi (hh mm : Nat) : isSignCh ((renderTz (.mi hh mm)).getD 0 ' ') = true := rfl

theorem renderTz_length_pl (hh mm : Nat) : (renderTz (.pl hh mm)).length = 6 := rfl

theorem renderTz_length_mi (hh mm : Nat) : (renderTz (.mi hh mm)).length = 6 := rfl

theorem hasCh_append (c : Char) (a b : LC) :
    hasCh c (a ++ b) = (hasCh c a || hasCh c b) := by
  simp [hasCh, List.any_append]

theorem mkDT_some {y mo da h mi s us : Nat} {dt : PyDateTime}
    (hmk : mkDT y mo da h mi s us = some dt) :
    dt = ⟨y, mo, da, h, mi, s, us⟩ ∧ validDT ⟨y, mo, da, h, mi, s, us⟩ = true := by
  by_cases hv : validDT ⟨y, mo, da, h, mi, s, us⟩ = true
  · refine ⟨?_, hv⟩
    rw [mkDT] at hmk
    simp only [if_pos hv, Option.some_inj] at hmk
    exact hmk.symm
  · rw [mkDT] at hmk
    simp only [if_neg hv] at hmk
    exact absurd hmk (by simp)

theorem addDays_zero (dt : PyDateTime) : addDays dt 0 = some dt := rfl

theorem getLast?_pad4 (y : Nat) : (pad4 y).getLast? = some (digitCh (y % 10)) := rfl

theorem getLast?_pad2_tail (p : LC) (m : Nat) :
    (p ++ '-' :: pad2 m).getLast? = some (digitCh (m % 10)) := by
  rw [List.getLast?_append_of_ne_nil p (by simp)]
  rfl

theorem digit_mod10_ne_Z (n : Nat) : digitCh (n % 10) ≠ 'Z' :=
  isDigit_ne (isDigitCh_digitCh (Nat.mod_lt _ (by decide))) (by decide)

/-- `stripTz` on a string of length at most 10 whose last character is a
digit is the identity split. -/
theorem stripTz_short (v : LC) (hlen : v.length ≤ 10) {c : Char}
    (hlast : v.getLast? = some c) (hdig : isDigitCh c = true) :
    stripTz v = (v, []) := by
  apply stripTz_plain
  · rw [hlast]
    intro hco
    have hcz : c = 'Z' := by injection hco
    subst hcz
    exact absurd hdig (by decide)
  · rw [List.drop_eq_nil_of_le hlen]; rfl
  · rw [List.drop_eq_nil_of_le hlen]; rfl


theorem parseFhirDate_year {y : Nat} (hy : y < 10000) :
    parseFhirDate (render (.year y)) =
      (mkDT y 1 1 0 0 0 0).map (fun dt => (dt, ([] : LC), 0)) := by
  by_cases h0 : y = 0
  · subst h0; decide
  · have hstrip : stripTz (pad4 y) = (pad4 y, []) :=
      stripTz_short _ (by rw [pad4_length]; omega) (getLast?_pad4 y)
        (isDigitCh_digitCh (Nat.mod_lt _ (by decide)))
    have hfrac : fracLenOf (pad4 y) = 0 :=
      fracLenOf_noDot (fun x hx => isDigit_ne (mem_pad4 hx) (by decide))
    rw [render, parseFhirDate, hstrip]
    simp only [hfrac, pad4_length]
    rw [pyInt_digits (allDigits_pad4 y) (by simp [pad4]), digitsToNat_pad4 hy]
    norm_num
    rw [if_neg h0]

theorem parseFhirDate_ym {y m : Nat} (hy : y < 10000) (hm : m < 100) :
    parseFhirDate (render (.ym y m)) =
      (mkDT y m 1 0 0 0 0).map (fun dt => (dt, ([] : LC), 0)) := by
  have hlen : (pad4 y ++ '-' :: pad2 m).length = 7 := by
    simp [pad4, pad2]
  have hstrip : stripTz (pad4 y ++ '-' :: pad2 m) = (pad4 y ++ '-' :: pad2 m, []) :=
    stripTz_short _ (by rw [hlen]; omega) (getLast?_pad2_tail _ m)
      (isDigitCh_digitCh (Nat.mod_lt _ (by decide)))
  have hfrac : fracLenOf (pad4 y ++ '-' :: pad2 m) = 0 := by
    apply fracLenOf_noDot
    intro x hx
    simp only [List.mem_append, List.mem_cons] at hx
    rcases hx with hx | hx | hx
    · exact isDigit_ne (mem_pad4 hx) (by decide)
    · subst hx; decide
    · exact isDigit_ne (mem_pad2 hx) (by decide)
  rw [render, parseFhirDate, hstrip]
  simp only [hfrac, hlen]
  norm_num
  rw [parseYM_pad, parse4_pad4 hy, parse2_pad2 hm]

theorem parseFhirDate_ymd {y m d : Nat} (hy : y < 10000) (hm : m < 100) (hd : d < 100) :
    parseFhirDate (render (.ymd y m d)) =
      (mkDT y m d 0 0 0 0).map (fun dt => (dt, ([] : LC), 0)) := by
  have hlen : (dateRender y m d).length = 10 := dateRender_length y m d
  have hstrip : stripTz (dateRender y m d) = (dateRender y m d, []) := by
    apply stripTz_short _ (by rw [hlen])
    · exact getLast?_pad2_tail (pad4 y ++ '-' :: pad2 m) d
    · exact isDigitCh_digitCh (Nat.mod_lt _ (by decide))
  have hfrac : fracLenOf (dateRender y m d) = 0 := by
    apply fracLenOf_noDot
    intro x hx
    rcases mem_dateRender hx with hx | hx
    · exact isDigit_ne hx (by decide)
    · subst hx; decide
  rw [render, parseFhirDate, hstrip]
  simp only [hfrac, hlen]
  norm_num
  rw [parseYMD_pad, parse4_pad4 hy, parse2_pad2 hm, parse2_pad2 hd]

def dtCore (y m d hh mi ss : Nat) (frac : Option LC) : LC :=
  dateRender y m d ++ 'T' :: (timeRender hh mi ss ++ fracRender frac)

def usOf : Option LC → Nat
  | none => 0
  | some ds => digitsToNat ds * 10 ^ (6 - ds.length)

def fracLenF : Option LC → Nat
  | none => 0
  | some ds => ds.length

theorem render_dt (y m d hh mi ss : Nat) (frac : Option LC) (tz : Option TzS) :
    render (.dt y m d hh mi ss frac tz) = dtCore y m d hh mi ss frac ++ tzRender tz := by
  simp [render, dtCore, List.append_assoc]

theorem dtCore_length (y m d hh mi ss : Nat) (frac : Option LC) :
    (dtCore y m d hh mi ss frac).length = 19 + (fracRender frac).length := by
  simp [dtCore, List.length_append, dateRender_length, timeRender_length]
  omega

theorem getLast?_timeRender (hh mi ss : Nat) :
    (timeRender hh mi ss).getLast? = some (digitCh (ss % 10)) := rfl

theorem getLast?_dtCore (y m d hh mi ss : Nat) (frac : Option LC)
    (hfr : ∀ ds, frac = some ds → ds ≠ [] ∧ allDigits ds = true) :
    ∃ c, (dtCore y m d hh mi ss frac).getLast? = some c ∧ isDigitCh c = true := by
  cases frac with
  | none =>
    refine ⟨digitCh (ss % 10), ?_, isDigitCh_digitCh (Nat.mod_lt _ (by decide))⟩
    simp only [dtCore, fracRender, List.append_nil]
    rw [List.getLast?_append_of_ne_nil (dateRender y m d) (by simp)]
    show (['T'] ++ timeRender hh mi ss).getLast? = _
    rw [List.getLast?_append_of_ne_nil ['T'] (by simp [timeRender, pad2])]
    exact getLast?_timeRender hh mi ss
  | some ds =>
    obtain ⟨hne, hdig⟩ := hfr ds rfl
    refine ⟨ds.getLast hne, ?_, ?_⟩
    · simp only [dtCore, fracRender]
      rw [List.getLast?_append_of_ne_nil (dateRender y m d) (by simp)]
      show (['T'] ++ (timeRender hh mi ss ++ '.' :: ds)).getLast? = _
      rw [List.getLast?_append_of_ne_nil ['T'] (by simp)]
      rw [List.getLast?_append_of_ne_nil (timeRender hh mi ss) (by simp)]
      show (['.'] ++ ds).getLast? = _
      rw [List.getLast?_append_of_ne_nil ['.'] hne]
      exact List.getLast?_eq_getLast ds hne
    · simp only [allDigits, List.all_eq_true] at hdig
      exact hdig _ (List.getLast_mem hne)

theorem dtCore_drop10 (y m d hh mi ss : Nat) (frac : Option LC) :
    (dtCore y m d hh mi ss frac).drop 10 = 'T' :: (timeRender hh mi ss ++ fracRender frac) := by
  have := List.drop_left (dateRender y m d) ('T' :: (timeRender hh mi ss ++ fracRender frac))
  rw [dateRender_length] at this
  exact this

theorem mem_timeFrac {x : Char} {hh mi ss : Nat} {frac : Option LC}
    (hfr : ∀ ds, frac = some ds → allDigits ds = true)
    (h : x ∈ 'T' :: (timeRender hh mi ss ++ fracRender frac)) :
    isDigitCh x = true ∨ x = 'T' ∨ x = ':' ∨ x = '.' := by
  simp only [List.mem_cons, List.mem_append] at h
  rcases h with h | h | h
  · exact Or.inr (Or.inl h)
  · rcases mem_timeRender h with h | h
    · exact Or.inl h
    · exact Or.inr (Or.inr (Or.inl h))
  · rcases mem_fracRender hfr h with h | h
    · exact Or.inl h
    · exact Or.inr (Or.inr (Or.inr h))

theorem hasCh_dtCore_drop10 (c : Char) (hc : c.toNat < 48 ∨ 57 < c.toNat)
    (hcT : c ≠ 'T') (hcC : c ≠ ':') (hcD : c ≠ '.')
    {y m d hh mi ss : Nat} {frac : Option LC}
    (hfr : ∀ ds, frac = some ds → allDigits ds = true) :
    hasCh c ((dtCore y m d hh mi ss frac).drop 10) = false := by
  rw [dtCore_drop10]
  apply hasCh_false_of
  intro x hx
  rcases mem_timeFrac hfr hx with h | h | h | h
  · exact isDigit_ne h hc
  · subst h; exact fun he => hcT he.symm
  · subst h; exact fun he => hcC he.symm
  · subst h; exact fun he => hcD he.symm

theorem stripTz_dtCore (y m d hh mi ss : Nat) (frac : Option LC) (tz : Option TzS)
    (hfr : ∀ ds, frac = some ds → ds ≠ [] ∧ allDigits ds = true) :
    stripTz (dtCore y m d hh mi ss frac ++ tzRender tz) =
      (dtCore y m d hh mi ss frac, tzRender tz) := by
  obtain ⟨c, hlast, hdig⟩ := getLast?_dtCore y m d hh mi ss frac hfr
  have hfr2 : ∀ ds, frac = some ds → allDigits ds = true := fun ds h => (hfr ds h).2
  have hlastne : (dtCore y m d hh mi ss frac).getLast? ≠ some 'Z' := by
    rw [hlast]
    intro hco
    have hcz : c = 'Z' := by injection hco
    subst hcz
    exact absurd hdig (by decide)
  cases tz with
  | none =>
    simp only [tzRender, List.append_nil]
    exact stripTz_plain _ hlastne
      (hasCh_dtCore_drop10 '+' (by decide) (by decide) (by decide) (by decide) hfr2)
      (hasCh_dtCore_drop10 '-' (by decide) (by decide) (by decide) (by decide) hfr2)
  | some t =>
    cases t with
    | z => exact stripTz_z _
    | pl h2 m2 =>
      apply stripTz_sign
      · rw [dtCore_length]; omega
      · exact renderTz_getD_pl h2 m2
      · exact renderTz_length_pl h2 m2
      · rw [List.getLast?_append_of_ne_nil _ (by simp [tzRender, renderTz, pad2])]
        rw [show (tzRender (some (TzS.pl h2 m2))).getLast? = some (digitCh (m2 % 10)) from rfl]
        intro hco
        exact digit_mod10_ne_Z m2 (by injection hco)
      · rw [List.drop_append_of_le_length (by rw [dtCore_length]; omega)]
        rw [hasCh_append, hasCh_append]
        rw [show hasCh '+' (tzRender (some (TzS.pl h2 m2))) = true from rfl]
        simp
    | mi h2 m2 =>
      apply stripTz_sign
      · rw [dtCore_length]; omega
      · exact renderTz_getD_mi h2 m2
      · exact renderTz_length_mi h2 m2
      · rw [List.getLast?_append_of_ne_nil _ (by simp [tzRender, renderTz, pad2])]
        rw [show (tzRender (some (TzS.mi h2 m2))).getLast? = some (digitCh (m2 % 10)) from rfl]
        intro hco
        exact digit_mod10_ne_Z m2 (by injection hco)
      · rw [List.drop_append_of_le_length (by rw [dtCore_length]; omega)]
        rw [hasCh_append, hasCh_append]
        rw [show hasCh '-' (tzRender (some (TzS.mi h2 m2))) = true from rfl]
        simp

theorem fracLenOf_dtCore (y m d hh mi ss : Nat) (frac : Option LC)
    (hfr : ∀ ds, frac = some ds → allDigits ds = true) :
    fracLenOf (dtCore y m d hh mi ss frac) = fracLenF frac := by
  cases frac with
  | none =>
    apply fracLenOf_noDot
    intro x hx
    simp only [dtCore, fracRender, List.append_nil, List.mem_append, List.mem_cons] at hx
    rcases hx with hx | hx | hx
    · rcases mem_dateRender hx with h | h
      · exact isDigit_ne h (by decide)
      · subst h; decide
    · subst hx; decide
    · rcases mem_timeRender hx with h | h
      · exact isDigit_ne h (by decide)
      · subst h; decide
  | some ds =>
    have hsplit : dtCore y m d hh mi ss (some ds) =
        (dateRender y m d ++ 'T' :: timeRender hh mi ss) ++ '.' :: ds := by
      simp [dtCore, fracRender, List.append_assoc]
    have hpre : ∀ x ∈ dateRender y m d ++ 'T' :: timeRender hh mi ss, x ≠ '.' := by
      intro x hx
      simp only [List.mem_append, List.mem_cons] at hx
      rcases hx with hx | hx | hx
      · rcases mem_dateRender hx with h | h
        · exact isDigit_ne h (by decide)
        · subst h; decide
      · subst hx; decide
      · rcases mem_timeRender hx with h | h
        · exact isDigit_ne h (by decide)
        · subst h; decide
    rw [hsplit, fracLenOf_concat hpre (hfr ds rfl)]
    rfl

theorem parseFhirDate_dt {y m d hh mi ss : Nat} {frac : Option LC} {tz : Option TzS}
    (hy : y < 10000) (hm : m < 100) (hd : d < 100) (hhh : hh < 100) (hmi : mi < 100)
    (hss : ss < 100)
    (hfr : ∀ ds, frac = some ds → 1 ≤ ds.length ∧ ds.length ≤ 6 ∧ allDigits ds = true) :
    parseFhirDate (render (.dt y m d hh mi ss frac tz)) =
      (mkDT y m d hh mi ss (usOf frac)).map (fun dt => (dt, tzRender tz, fracLenF frac)) := by
  have hfr1 : ∀ ds, frac = some ds → ds ≠ [] ∧ allDigits ds = true := by
    intro ds h
    obtain ⟨h1, _, h3⟩ := hfr ds h
    exact ⟨by intro hnil; rw [hnil] at h1; simp at h1, h3⟩
  have hfr2 : ∀ ds, frac = some ds → allDigits ds = true := fun ds h => (hfr1 ds h).2
  rw [render_dt, parseFhirDate, stripTz_dtCore y m d hh mi ss frac tz hfr1]
  simp only [fracLenOf_dtCore y m d hh mi ss frac hfr2]
  have hlen : (dtCore y m d hh mi ss frac).length = 19 + (fracRender frac).length :=
    dtCore_length y m d hh mi ss frac
  rw [if_neg (by rw [hlen]; omega), if_neg (by rw [hlen]; omega), if_neg (by rw [hlen]; omega)]
  show ((fromIso (dtCore y m d hh mi ss frac)).map fun dt => (dt, tzRender tz, fracLenF frac)) = _
  rw [show dtCore y m d hh mi ss frac =
    dateRender y m d ++ 'T' :: (timeRender hh mi ss ++ fracRender frac) from rfl]
  rw [fromIso_pad, parseYMD_pad, parse4_pad4 hy, parse2_pad2 hm, parse2_pad2 hd]
  rw [parseTime_pad, parse2_pad2 hhh, parse2_pad2 hmi, parse2_pad2 hss]
  cases frac with
  | none => rfl
  | some ds =>
    obtain ⟨h1, h6, hdig⟩ := hfr ds rfl
    show (Option.map (fun dt => (dt, tzRender tz, fracLenF (some ds)))
      (match (parseFrac ds).map (fun us => (hh, mi, ss, us)) with
        | some (t1, t2, t3, t4) => mkDT y m d t1 t2 t3 t4
        | none => none)) = _
    rw [parseFrac_valid h1 h6 hdig]
    rfl

theorem shift_rt_year {y : Nat} (hy : y < 10000) :
    shift_date (render (.year y)) 0 false = .ok (render (.year y)) := by
  rw [shift_date, parseFhirDate_year hy]
  cases hmk : mkDT y 1 1 0 0 0 0 with
  | none => rfl
  | some dt =>
    obtain ⟨hdt, hval⟩ := mkDT_some hmk
    subst hdt
    show Except.ok (formatFhirDate (render (.year y)) ⟨y, 1, 1, 0, 0, 0, 0⟩ [] 0) =
      Except.ok (render (FShape.year y))
    congr 1
    show formatFhirDate (pad4 y) ⟨y, 1, 1, 0, 0, 0, 0⟩ [] 0 = pad4 y
    rw [formatFhirDate, rstripZ_of_ne (getLast?_pad4 y) (digit_mod10_ne_Z y)]
    simp [pad4_length]

theorem pyDropEnd_append (n : Nat) (a b : LC) (h : b.length = n) :
    pyDropEnd n (a ++ b) = a := by
  rw [pyDropEnd, List.length_append, h, Nat.add_sub_cancel]
  exact List.take_left a b

theorem natDigitsAux_zero (fuel : Nat) : natDigitsAux fuel 0 = [] := by
  cases fuel <;> rfl

theorem natDigitsAux_step {fuel n : Nat} (hn : 0 < n) (hf : 0 < fuel) :
    natDigitsAux fuel n = natDigitsAux (fuel - 1) (n / 10) ++ [digitCh (n % 10)] := by
  obtain ⟨f, rfl⟩ : ∃ f, fuel = f + 1 := ⟨fuel - 1, by omega⟩
  obtain ⟨m, rfl⟩ : ∃ m, n = m + 1 := ⟨n - 1, by omega⟩
  rfl

/-- On four-digit years the unpadded `%Y` coincides with the zero-padded
rendering. -/
theorem strfY_eq_pad4 {y : Nat} (h1 : 1000 ≤ y) (h2 : y < 10000) : strfY y = pad4 y := by
  rw [strfY, natRepr, if_neg (by omega), natDigits]
  rw [natDigitsAux_step (by omega) (by omega)]
  rw [natDigitsAux_step (show 0 < y / 10 by omega) (show 0 < y - 1 by omega)]
  rw [natDigitsAux_step (show 0 < y / 10 / 10 by omega) (show 0 < y - 1 - 1 by omega)]
  rw [natDigitsAux_step (show 0 < y / 10 / 10 / 10 by omega)
    (show 0 < y - 1 - 1 - 1 by omega)]
  have hz : y / 10 / 10 / 10 / 10 = 0 := by omega
  rw [hz, natDigitsAux_zero]
  have e3 : y / 10 / 10 / 10 = y / 1000 := by omega
  have e2 : y / 10 / 10 = y / 100 := by omega
  rw [e3, e2, pad4]
  simp

theorem shift_rt_ym {y m : Nat} (hy : y < 10000) (hm : m < 100) (hy4 : 1000 ≤ y) :
    shift_date (render (.ym y m)) 0 false = .ok (render (.ym y m)) := by
  rw [shift_date, parseFhirDate_ym hy hm]
  cases hmk : mkDT y m 1 0 0 0 0 with
  | none => rfl
  | some dt =>
    obtain ⟨hdt, hval⟩ := mkDT_some hmk
    subst hdt
    show Except.ok (formatFhirDate (render (.ym y m)) ⟨y, m, 1, 0, 0, 0, 0⟩ [] 0) =
      Except.ok (render (FShape.ym y m))
    congr 1
    show formatFhirDate (pad4 y ++ '-' :: pad2 m) ⟨y, m, 1, 0, 0, 0, 0⟩ [] 0 =
      pad4 y ++ '-' :: pad2 m
    rw [formatFhirDate, rstripZ_of_ne (getLast?_pad2_tail (pad4 y) m) (digit_mod10_ne_Z m)]
    have hlen : (pad4 y ++ '-' :: pad2 m).length = 7 := by simp [pad4, pad2]
    rw [hlen]
    norm_num
    rw [strfY_eq_pad4 hy4 hy]

theorem shift_rt_ymd {y m d : Nat} (hy : y < 10000) (hm : m < 100) (hd : d < 100)
    (hy4 : 1000 ≤ y) :
    shift_date (render (.ymd y m d)) 0 false = .ok (render (.ymd y m d)) := by
  rw [shift_date, parseFhirDate_ymd hy hm hd]
  cases hmk : mkDT y m d 0 0 0 0 with
  | none => rfl
  | some dt =>
    obtain ⟨hdt, hval⟩ := mkDT_some hmk
    subst hdt
    show Except.ok (formatFhirDate (render (.ymd y m d)) ⟨y, m, d, 0, 0, 0, 0⟩ [] 0) =
      Except.ok (render (FShape.ymd y m d))
    congr 1
    show formatFhirDate (dateRender y m d) ⟨y, m, d, 0, 0, 0, 0⟩ [] 0 = dateRender y m d
    have hr : rstripZ (dateRender y m d) = dateRender y m d :=
      @rstripZ_of_ne (dateRender y m d) _ (getLast?_pad2_tail (pad4 y ++ '-' :: pad2 m) d)
        (digit_mod10_ne_Z d)
    rw [formatFhirDate, hr, dateRender_length]
    norm_num
    rw [strfY_eq_pad4 hy4 hy]
    rfl

theorem shift_rt_dt {y m d hh mi ss : Nat} {frac : Option LC} {tz : Option TzS}
    (hy : y < 10000) (hm : m < 100) (hd : d < 100) (hhh : hh < 100) (hmi : mi < 100)
    (hss : ss < 100)
    (hfr : ∀ ds, frac = some ds → 1 ≤ ds.length ∧ ds.length ≤ 6 ∧ allDigits ds = true) :
    shift_date (render (.dt y m d hh mi ss frac tz)) 0 false =
      .ok (render (.dt y m d hh mi ss frac tz)) := by
  have hfr1 : ∀ ds, frac = some ds → ds ≠ [] ∧ allDigits ds = true := by
    intro ds h
    obtain ⟨h1, _, h3⟩ := hfr ds h
    exact ⟨by intro hnil; rw [hnil] at h1; simp at h1, h3⟩
  rw [shift_date, parseFhirDate_dt hy hm hd hhh hmi hss hfr]
  cases hmk : mkDT y m d hh mi ss (usOf frac) with
  | none => rfl
  | some dt =>
    obtain ⟨hdt, hval⟩ := mkDT_some hmk
    subst hdt
    show Except.ok (formatFhirDate (render (.dt y m d hh mi ss frac tz))
      ⟨y, m, d, hh, mi, ss, usOf frac⟩ (tzRender tz) (fracLenF frac)) =
      Except.ok (render (FShape.dt y m d hh mi ss frac tz))
    congr 1
    obtain ⟨c, hlastc, hdigc⟩ := getLast?_dtCore y m d hh mi ss frac hfr1
    have hcz : c ≠ 'Z' := isDigit_ne hdigc (by decide)
    have hstrip : rstripZ (render (.dt y m d hh mi ss frac tz)) =
        dtCore y m d hh mi ss frac ++ (if tz = some .z then [] else tzRender tz) := by
      rw [render_dt]
      cases tz with
      | none =>
        rw [if_neg (by simp)]
        simp only [tzRender, List.append_nil]
        exact rstripZ_of_ne hlastc hcz
      | some t =>
        cases t with
        | z =>
          rw [if_pos rfl]
          simpa [tzRender, renderTz] using rstripZ_concat_z hlastc hcz
        | pl h2 m2 =>
          rw [if_neg (by simp)]
          apply @rstripZ_of_ne _ (digitCh (m2 % 10))
          · rw [List.getLast?_append_of_ne_nil _ (by simp [tzRender, renderTz, pad2])]
            exact (show (tzRender (some (TzS.pl h2 m2))).getLast? = some (digitCh (m2 % 10)) from rfl)
          · exact digit_mod10_ne_Z m2
        | mi h2 m2 =>
          rw [if_neg (by simp)]
          apply @rstripZ_of_ne _ (digitCh (m2 % 10))
          · rw [List.getLast?_append_of_ne_nil _ (by simp [tzRender, renderTz, pad2])]
            exact (show (tzRender (some (TzS.mi h2 m2))).getLast? = some (digitCh (m2 % 10)) from rfl)
          · exact digit_mod10_ne_Z m2
    rw [formatFhirDate, hstrip]
    have hdlen := dtCore_length y m d hh mi ss frac
    have hL : 19 ≤ (dtCore y m d hh mi ss frac ++
        (if tz = some .z then [] else tzRender tz)).length := by
      rw [List.length_append, hdlen]
      omega
    rw [if_neg (by omega), if_neg (by omega), if_neg (by omega)]
    cases frac with
    | none =>
      rw [if_neg (by simp [fracLenF])]
      show dateRender y m d ++ 'T' :: timeRender hh mi ss ++ tzRender tz = _
      rw [render_dt]
      simp [dtCore, fracRender, List.append_assoc]
    | some ds =>
      obtain ⟨h1, h6, hdig⟩ := hfr ds rfl
      rw [if_pos (show 0 < fracLenF (some ds) by simpa [fracLenF] using h1)]
      have hds2 : dateStrDT ⟨y, m, d, hh, mi, ss, usOf (some ds)⟩ = dateRender y m d := rfl
      have hts : timeStrDT ⟨y, m, d, hh, mi, ss, usOf (some ds)⟩ = timeRender hh mi ss := rfl
      have hfl : fracLenF (some ds) = ds.length := rfl
      simp only [hds2, hts, hfl]
      rw [show pad6 (usOf (some ds)) = ds ++ List.replicate (6 - ds.length) '0' from by
        rw [show usOf (some ds) = digitsToNat ds * 10 ^ (6 - ds.length) from rfl]
        exact pad6_scaled hdig h1 h6]
      by_cases hlt : ds.length < 6
      · rw [if_pos hlt]
        have hre : dateRender y m d ++ 'T' :: timeRender hh mi ss ++
            '.' :: (ds ++ List.replicate (6 - ds.length) '0') =
            (dateRender y m d ++ 'T' :: timeRender hh mi ss ++ '.' :: ds) ++
              List.replicate (6 - ds.length) '0' := by
          simp [List.append_assoc]
        rw [hre, pyDropEnd_append _ _ _ (by simp)]
        rw [render_dt]
        simp [dtCore, fracRender, List.append_assoc]
      · have h66 : ds.length = 6 := by omega
        rw [if_neg hlt]
        rw [render_dt]
        simp [dtCore, fracRender, h66, List.append_assoc]

/-- C3 counterexamples: the 4.1 grammar admits minute-precision date-times
(seconds optional), and those do not round-trip at offset 0 — the formatter
re-emits them at seconds precision; and the year-month and full-date
branches format through `strftime("%Y-…")`, whose `%Y` is unpadded, so an
in-grammar year below 1000 loses its leading zero. -/
theorem C3_counterexample_minute_precision :
    (fhirDateMatch "2024-01-01T00:00".data = true ∧
      shift_date "2024-01-01T00:00".data 0 false = .ok "2024-01-01T00:00:00".data ∧
      shift_date "2024-01-01T00:00".data 0 false ≠ .ok "2024-01-01T00:00".data) ∧
    (fhirDateMatch "0123-05".data = true ∧
      shift_date "0123-05".data 0 false = .ok "123-05".data ∧
      shift_date "0123-05".data 0 false ≠ .ok "0123-05".data) := by
  refine ⟨⟨by decide, by decide, by decide⟩, by decide, by decide, by decide⟩

/-- The shapes whose formatter branch re-emits all four year digits: the
year-month and full-date branches go through the unpadded `strftime("%Y")`,
so they need a year of at least 1000; the year branch (`%04d` f-string) and
the date-time branches (`isoformat`) re-pad unconditionally. -/
def strfPadded : FShape → Bool
  | .ym y _ => 1000 ≤ y
  | .ymd y _ _ => 1000 ≤ y
  | _ => true

/-- C3 (amended): for every string of the 4.1 grammar whose date-time shape
carries an explicit seconds component (year; year-month; full date; date-time
with seconds, optional 1–6 digit fraction, optional `Z` or `±HH:MM` suffix)
and whose year-month or full-date year is at least 1000 (below that,
`strftime`'s unpadded `%Y` drops the leading zeros), shifting by offset 0
returns the string byte-for-byte. -/
theorem C3_round_trip_offset_zero (s : FShape) (hv : validShape s = true)
    (hp : strfPadded s = true) :
    shift_date (render s) 0 false = .ok (render s) := by
  cases s with
  | year y => exact shift_rt_year (by simpa [validShape] using hv)
  | ym y m =>
    simp only [validShape, Bool.and_eq_true, decide_eq_true_eq] at hv
    exact shift_rt_ym hv.1 hv.2 (of_decide_eq_true hp)
  | ymd y m d =>
    simp only [validShape, Bool.and_eq_true, decide_eq_true_eq] at hv
    exact shift_rt_ymd hv.1.1 hv.1.2 hv.2 (of_decide_eq_true hp)
  | dt y m d hh mi ss frac tz =>
    simp only [validShape, Bool.and_eq_true, decide_eq_true_eq] at hv
    obtain ⟨⟨⟨⟨⟨⟨⟨hy, hm⟩, hd⟩, hhh⟩, hmi⟩, hss⟩, hfrm⟩, _⟩ := hv
    apply shift_rt_dt hy hm hd hhh hmi hss
    intro ds hds
    rw [hds] at hfrm
    simp only [Bool.and_eq_true, decide_eq_true_eq] at hfrm
    exact ⟨hfrm.1.1, hfrm.1.2, hfrm.2⟩

/-- C3 witness: a concrete fractional, timezone-carrying shape round-trips. -/
theorem C3_round_trip_witness :
    validShape (.dt 2024 1 2 3 4 5 (some ['1', '2', '3']) (some (.pl 2 0))) = true ∧
      shift_date "2024-01-02T03:04:05.123+02:00".data 0 false =
        .ok "2024-01-02T03:04:05.123+02:00".data := by
  refine ⟨by decide, ?_⟩
  have h := C3_round_trip_offset_zero (.dt 2024 1 2 3 4 5 (some ['1', '2', '3'])
    (some (.pl 2 0))) (by decide) (by decide)
  have hr : render (.dt 2024 1 2 3 4 5 (some ['1', '2', '3']) (some (.pl 2 0))) =
      "2024-01-02T03:04:05.123+02:00".data := by decide
  rwa [hr] at h

/-- C4: `deterministic_offset` is the first four digest bytes of
SHA-256(secret ++ id) read big-endian, reduced mod 181, minus 90, and the
result always lies in [-90, 90]. -/
theorem C4_deterministic_offset_range (salt pid : LC) :
    deterministic_offset salt pid =
      Int.ofNat (beBytesToNat ((sha256Bytes (utf8 (salt ++ pid))).take 4) % 181) - 90 ∧
    -90 ≤ deterministic_offset salt pid ∧ deterministic_offset salt pid ≤ 90 := by
  refine ⟨rfl, ?_, ?_⟩ <;>
  · rw [deterministic_offset, Int.ofNat_eq_natCast]
    have hn : beBytesToNat ((sha256Bytes (utf8 (salt ++ pid))).take 4) % 181 < 181 :=
      Nat.mod_lt _ (by decide)
    omega

/-- Modelled from the claim's words (C5): the effective strip list is the
table's entry for the tag (empty when absent), then the wildcard entry's
fields not already present; under safe-harbor the birth-date field is
removed from that set. -/
def fieldsToStripSpec (policy : Policy) (tag : Option LC) (sh : Bool) : List LC :=
  let base := match tag with
    | some t => (alookup t policy).getD []
    | none => []
  let eff := base ++ (((alookup tagStar policy).getD []).filter (fun f => f ∉ base))
  if sh then eff.filter (fun f => f ≠ kBirthDate) else eff

theorem filter_ne_of_not_mem {k : LC} {l : List LC} (h : k ∉ l) :
    l.filter (fun x => x ≠ k) = l := by
  apply List.filter_eq_self.mpr
  intro y hy
  simp only [ne_eq, decide_eq_true_eq]
  intro he
  exact h (he ▸ hy)

theorem eraseFirst_of_nodup {k : LC} {l : List LC} (h : l.Nodup) :
    eraseFirst k l = l.filter (fun x => x ≠ k) := by
  induction l with
  | nil => rfl
  | cons x rest ih =>
    rw [List.nodup_cons] at h
    rw [eraseFirst, List.filter_cons]
    by_cases hx : x = k
    · subst hx
      rw [if_pos rfl, if_neg (by simp)]
      exact (filter_ne_of_not_mem h.1).symm
    · rw [if_neg hx, if_pos (by simpa using hx), ih h.2]

theorem C5_counterexample_duplicate_wildcard :
    kBirthDate ∈ phiFieldsFor [(tagStar, [kBirthDate, kBirthDate])] (some "Obs".data) true := by
  decide

/-- C5 (amended): for a policy table whose relevant entries are
duplicate-free, the effective strip list is the base entry followed by the
wildcard entries not already present (deduplicated), and under safe-harbor
the birth-date field is absent from the result. -/
theorem C5_policy_resolution (policy : Policy) (tag : Option LC) (sh : Bool)
    (hb : (match tag with | some t => (alookup t policy).getD [] | none => []).Nodup)
    (hw : ((alookup tagStar policy).getD []).Nodup) :
    phiFieldsFor policy tag sh = fieldsToStripSpec policy tag sh ∧
    (phiFieldsFor policy tag sh).Nodup ∧
    (sh = true → kBirthDate ∉ phiFieldsFor policy tag sh) := by
  simp only [phiFieldsFor, fieldsToStripSpec]
  generalize hW : (alookup tagStar policy).getD [] = wild at hw ⊢
  generalize hB : (match tag with | some t => (alookup t policy).getD [] | none => []) = base at hb ⊢
  have heff : (if tag = some tagStar then base else base ++ wild.filter (fun f => f ∉ base)) =
      base ++ wild.filter (fun f => f ∉ base) := by
    by_cases ht : tag = some tagStar
    · rw [if_pos ht]
      have hbw : base = wild := by
        rw [ht] at hB
        simp only at hB
        rw [← hB, ← hW]
      have hfe : wild.filter (fun f => (f ∉ base : Bool)) = [] := by
        rw [hbw]
        apply List.filter_eq_nil_iff.mpr
        intro a ha
        simp [ha]
      rw [hfe, List.append_nil, hbw]
    · rw [if_neg ht]
  rw [heff]
  have hnd : (base ++ wild.filter (fun f => (f ∉ base : Bool))).Nodup := by
    rw [List.nodup_append]
    refine ⟨hb, hw.filter _, ?_⟩
    intro a ha hafilt
    rw [List.mem_filter] at hafilt
    simp only [decide_eq_true_eq] at hafilt
    exact hafilt.2 ha
  cases sh with
  | false =>
    rw [if_neg (by simp), if_neg (by simp)]
    exact ⟨rfl, hnd, by simp⟩
  | true =>
    by_cases hbd : kBirthDate ∈ base ++ wild.filter (fun f => (f ∉ base : Bool))
    · rw [if_pos ⟨rfl, hbd⟩, if_pos rfl, eraseFirst_of_nodup hnd]
      refine ⟨rfl, hnd.filter _, fun _ => ?_⟩
      rw [List.mem_filter]
      simp
    · rw [if_neg (fun hcon => hbd hcon.2), if_pos rfl, filter_ne_of_not_mem hbd]
      exact ⟨rfl, hnd, fun _ => hbd⟩

/-- C5 witness: the built-in table at tag `Patient` under safe-harbor. -/
theorem C5_policy_resolution_witness :
    phiFieldsFor PHI_POLICY (some "Patient".data) true =
      fieldsToStripSpec PHI_POLICY (some "Patient".data) true ∧
    (phiFieldsFor PHI_POLICY (some "Patient".data) true).Nodup ∧
    (true = true → kBirthDate ∉ phiFieldsFor PHI_POLICY (some "Patient".data) true) :=
  C5_policy_resolution PHI_POLICY (some "Patient".data) true (by decide) (by decide)

/-- C6: at the repository's own test input (tests/test_hash.py), the masked
value has length 16: `pseudonymise_identifier` always truncates to the first
16 hex characters of the digest and accepts no `hash_length` parameter,
while the tests assert a 64-character default digest and call the function
with `hash_length=16`. -/
theorem C6_pseudonymise_value_length_16 :
    (match alookup kValue (pseudonymise_identifier
        [(kSystem, .str "http://hospital.example.org/mrn".data), (kValue, .str "12345".data)]
        "s3cr3t".data) with
      | some (.str v) => v.length
      | _ => 0) = 16 := by decide

/-- The resource tag the policy lookup uses (`none` when `resourceType` is
absent or not a string). -/
def tagOf (fs : List (LC × Json)) : Option LC :=
  match alookup kResourceType fs with
  | some (.str s) => some s
  | _ => none

/-- Whether the `resourceType` value is hashable (not a dict or list). -/
def rtOk (fs : List (LC × Json)) : Bool :=
  match alookup kResourceType fs with
  | some (.obj _) => false
  | some (.arr _) => false
  | _ => true

theorem rd_obj_eq (p : Policy) (s : LC) (o : Int) (c h : Bool) (y : Nat)
    (fs : List (LC × Json)) (hrt : rtOk fs = true) :
    recursively_deidentify p s o c h y (.obj fs) =
      match deidFields p s o c h y (phiFieldsFor p (tagOf fs) h) fs with
      | .ok out => .ok (.obj out)
      | .error er => .error er := by
  rw [recursively_deidentify]
  cases halo : alookup kResourceType fs with
  | none => simp [halo, tagOf]
  | some v =>
    cases v with
    | null => simp [halo, tagOf]
    | bool b => simp [halo, tagOf]
    | num n => simp [halo, tagOf]
    | str s2 => simp [halo, tagOf]
    | arr xs => rw [rtOk, halo] at hrt; simp at hrt
    | obj g => rw [rtOk, halo] at hrt; simp at hrt

theorem rd_obj_err (p : Policy) (s : LC) (o : Int) (c h : Bool) (y : Nat)
    (fs : List (LC × Json)) (hrt : rtOk fs = false) :
    recursively_deidentify p s o c h y (.obj fs) = .error .typeError := by
  rw [recursively_deidentify]
  cases halo : alookup kResourceType fs with
  | none => rw [rtOk, halo] at hrt; simp at hrt
  | some v =>
    cases v with
    | null => rw [rtOk, halo] at hrt; simp at hrt
    | bool b => rw [rtOk, halo] at hrt; simp at hrt
    | num n => rw [rtOk, halo] at hrt; simp at hrt
    | str s2 => rw [rtOk, halo] at hrt; simp at hrt
    | arr xs => rfl
    | obj g => rfl

theorem rd_obj_ok_inv {p : Policy} {s : LC} {o : Int} {c h : Bool} {y : Nat}
    {fs : List (LC × Json)} {j : Json}
    (hok : recursively_deidentify p s o c h y (.obj fs) = .ok j) :
    rtOk fs = true ∧ ∃ out, j = .obj out ∧
      deidFields p s o c h y (phiFieldsFor p (tagOf fs) h) fs = .ok out := by
  by_cases hrt : rtOk fs = true
  · rw [rd_obj_eq p s o c h y fs hrt] at hok
    refine ⟨hrt, ?_⟩
    cases hdf : deidFields p s o c h y (phiFieldsFor p (tagOf fs) h) fs with
    | ok out =>
      rw [hdf] at hok
      simp only [Except.ok.injEq] at hok
      exact ⟨out, hok.symm, rfl⟩
    | error er =>
      rw [hdf] at hok
      simp at hok
  · rw [rd_obj_err p s o c h y fs (by simpa using hrt)] at hok
    simp at hok

theorem alookup_eq_none {β : Type} {k : LC} {l : List (LC × β)}
    (h : k ∉ l.map Prod.fst) : alookup k l = none := by
  induction l with
  | nil => rfl
  | cons x rest ih =>
    simp only [List.map_cons, List.mem_cons] at h
    obtain ⟨x1, x2⟩ := x
    rw [alookup, if_neg (fun he => h (Or.inl he.symm)), ih (fun hm => h (Or.inr hm))]

theorem deidFields_keys_subset {p : Policy} {s : LC} {o : Int} {c h : Bool} {y : Nat}
    {phi : List LC} : ∀ {fs out : List (LC × Json)},
    deidFields p s o c h y phi fs = .ok out →
    ∀ k, k ∈ out.map Prod.fst → k ∈ fs.map Prod.fst := by
  intro fs
  induction fs with
  | nil =>
    intro out hok k hk
    rw [deidFields] at hok
    simp only [Except.ok.injEq] at hok
    rw [← hok] at hk
    simp at hk
  | cons kv rest ih =>
    intro out hok k hk
    obtain ⟨k0, v0⟩ := kv
    rw [deidFields_cons] at hok
    cases he : deidEntry p s o c h y phi k0 v0 with
    | error er => rw [he] at hok; simp at hok
    | ok r =>
      rw [he] at hok
      cases hdf : deidFields p s o c h y phi rest with
      | error er => rw [hdf] at hok; simp at hok
      | ok out2 =>
        rw [hdf] at hok
        cases r with
        | some v2 =>
          simp only [Except.ok.injEq] at hok
          rw [← hok] at hk
          simp only [List.map_cons, List.mem_cons] at hk ⊢
          rcases hk with hk | hk
          · exact Or.inl hk
          · exact Or.inr (ih hdf k hk)
        | none =>
          simp only [Except.ok.injEq] at hok
          rw [← hok] at hk
          simp only [List.map_cons, List.mem_cons]
          exact Or.inr (ih hdf k hk)

theorem deidFields_alookup {p : Policy} {s : LC} {o : Int} {c h : Bool} {y : Nat}
    {phi : List LC} : ∀ {fs out : List (LC × Json)},
    (fs.map Prod.fst).Nodup →
    deidFields p s o c h y phi fs = .ok out →
    ∀ k v, alookup k fs = some v →
    (∃ v2, deidEntry p s o c h y phi k v = .ok (some v2) ∧ alookup k out = some v2) ∨
    (deidEntry p s o c h y phi k v = .ok none ∧ alookup k out = none) := by
  intro fs
  induction fs with
  | nil =>
    intro out _ _ k v hkv
    rw [alookup] at hkv
    simp at hkv
  | cons kv rest ih =>
    intro out hnd hok k v hkv
    obtain ⟨k0, v0⟩ := kv
    simp only [List.map_cons, List.nodup_cons] at hnd
    rw [deidFields_cons] at hok
    cases he : deidEntry p s o c h y phi k0 v0 with
    | error er => rw [he] at hok; simp at hok
    | ok r =>
      rw [he] at hok
      cases hdf : deidFields p s o c h y phi rest with
      | error er => rw [hdf] at hok; simp at hok
      | ok out2 =>
        rw [hdf] at hok
        rw [alookup] at hkv
        by_cases hk : k0 = k
        · rw [if_pos hk] at hkv
          simp only [Option.some_inj] at hkv
          subst hkv
          subst hk
          have hnotin : alookup k0 out2 = none := by
            apply alookup_eq_none
            intro hmem
            exact hnd.1 (deidFields_keys_subset hdf k0 hmem)
          cases r with
          | some v2 =>
            simp only [Except.ok.injEq] at hok
            rw [← hok]
            exact Or.inl ⟨v2, he, by rw [alookup, if_pos rfl]⟩
          | none =>
            simp only [Except.ok.injEq] at hok
            rw [← hok]
            exact Or.inr ⟨he, hnotin⟩
        · rw [if_neg hk] at hkv
          have := ih hnd.2 hdf k v hkv
          cases r with
          | some v2 =>
            simp only [Except.ok.injEq] at hok
            rw [← hok]
            rcases this with ⟨v3, he3, hl3⟩ | ⟨he3, hl3⟩
            · exact Or.inl ⟨v3, he3, by rw [alookup, if_neg hk]; exact hl3⟩
            · exact Or.inr ⟨he3, by rw [alookup, if_neg hk]; exact hl3⟩
          | none =>
            simp only [Except.ok.injEq] at hok
            rw [← hok]
            exact this

theorem rd_str (p : Policy) (s : LC) (o : Int) (c h : Bool) (y : Nat) (sv : LC) :
    recursively_deidentify p s o c h y (.str sv) = .ok (.str sv) := rfl

/-- A non-strip field: the entry is handled by the date branch or by the
generic recursion. -/
theorem deidEntry_not_phi {p : Policy} {s : LC} {o : Int} {c h : Bool} {y : Nat}
    {phi : List LC} {k : LC} {v : Json} (hk : k ∉ phi) :
    deidEntry p s o c h y phi k v =
      match dateStep o c h y k v with
      | some r => r
      | none =>
        match recursively_deidentify p s o c h y v with
        | .ok v2 => .ok (some v2)
        | .error er => .error er := by
  rw [deidEntry, if_neg hk]

theorem dateStep_str_parsed {o : Int} {c h : Bool} {y : Nat} {k : LC} {sv : LC}
    (htr : dateTrigger k sv = true) {r : PyDateTime × LC × Nat}
    (hp : parseFhirDate sv = some r) :
    dateStep o c h y k (.str sv) =
      some (match shift_date sv o c with
        | .error er => .error er
        | .ok s2 => .ok (some (.str (if h ∧ k = kBirthDate then binAge y s2 else s2)))) := by
  rw [dateStep, if_pos htr, hp]

theorem dateStep_str_unparsed {o : Int} {c h : Bool} {y : Nat} {k : LC} {sv : LC}
    (hp : parseFhirDate sv = none) :
    dateStep o c h y k (.str sv) = none := by
  rw [dateStep]
  by_cases htr : dateTrigger k sv = true
  · rw [if_pos htr, hp]
  · rw [if_neg htr]

theorem dateStep_str_untriggered {o : Int} {c h : Bool} {y : Nat} {k : LC} {sv : LC}
    (htr : dateTrigger k sv = false) :
    dateStep o c h y k (.str sv) = none := by
  rw [dateStep, if_neg (by rw [htr]; simp)]

/-- A non-strip string field that fails the heuristic or the parse comes
through unchanged. -/
theorem deidEntry_str_unchanged {p : Policy} {s : LC} {o : Int} {c h : Bool} {y : Nat}
    {phi : List LC} {k : LC} {sv : LC} (hk : k ∉ phi)
    (hcase : dateTrigger k sv = false ∨ parseFhirDate sv = none) :
    deidEntry p s o c h y phi k (.str sv) = .ok (some (.str sv)) := by
  rw [deidEntry_not_phi hk]
  rcases hcase with hcase | hcase
  · rw [dateStep_str_untriggered hcase, rd_str]
  · rw [dateStep_str_unparsed hcase, rd_str]

/-- A non-strip string field on which the heuristic fires and the parse
succeeds is replaced by the shifted (and possibly age-binned) string. -/
theorem deidEntry_str_shifted {p : Policy} {s : LC} {o : Int} {c h : Bool} {y : Nat}
    {phi : List LC} {k : LC} {sv s2 : LC} (hk : k ∉ phi)
    (htr : dateTrigger k sv = true) {r : PyDateTime × LC × Nat}
    (hp : parseFhirDate sv = some r) (hs : shift_date sv o c = .ok s2) :
    deidEntry p s o c h y phi k (.str sv) =
      .ok (some (.str (if h ∧ k = kBirthDate then binAge y s2 else s2))) := by
  rw [deidEntry_not_phi hk, dateStep_str_parsed htr hp, hs]

/-- Modelled from the claim's words (C1): an identifier element survives
exactly when its `system` field is present and a member of the
hashed-systems allowlist and its `value` field is present (non-null, as
`identifier.get("value") is None` treats an explicit null as absent); the
surviving form holds only the salted hash as `value` and the original
`system` verbatim. -/
def keepSpec (salt : LC) (e : Json) : Option Json :=
  match e with
  | .obj fs =>
    match alookup kSystem fs, alookup kValue fs with
    | some sysv, some v =>
      if isAllowedSystem sysv ∧ v ≠ .null then
        some (.obj [(kValue, .str (sha256_hash (pyStr v) salt)), (kSystem, sysv)])
      else none
    | _, _ => none
  | _ => none

theorem truthy_false_not_allowed {v : Json} (ht : truthy v = false) :
    isAllowedSystem v = false := by
  cases v with
  | str s =>
    simp only [truthy, decide_eq_false_iff_not, not_not] at ht
    subst ht
    decide
  | null => rfl
  | bool b => rfl
  | num n => rfl
  | arr xs => rfl
  | obj fs => rfl

theorem allowed_truthy {v : Json} (h : isAllowedSystem v = true) : truthy v = true := by
  cases hx : truthy v
  · rw [truthy_false_not_allowed hx] at h
    exact absurd h (by simp)
  · rfl

theorem keepSpec_none_of_not_allowed {salt : LC} {fs : List (LC × Json)}
    (h : isAllowedSystem ((alookup kSystem fs).getD .null) = false) :
    keepSpec salt (.obj fs) = none := by
  rw [keepSpec]
  cases hs : alookup kSystem fs with
  | none => cases alookup kValue fs <;> rfl
  | some sysv =>
    rw [hs] at h
    simp only [Option.getD_some] at h
    cases alookup kValue fs with
    | none => rfl
    | some v =>
      show (if isAllowedSystem sysv = true ∧ v ≠ Json.null then
        some (Json.obj [(kValue, Json.str (sha256_hash (pyStr v) salt)), (kSystem, sysv)])
        else none) = none
      rw [if_neg]
      intro hcon
      rw [h] at hcon
      exact absurd hcon.1 (by simp)

theorem keepSpec_obj_value_none {salt : LC} {fs : List (LC × Json)}
    (hv : alookup kValue fs = none) : keepSpec salt (.obj fs) = none := by
  rw [keepSpec, hv]
  cases alookup kSystem fs <;> rfl

theorem keepSpec_obj_some_some {salt : LC} {fs : List (LC × Json)} {sysv v : Json}
    (hs : alookup kSystem fs = some sysv) (hv : alookup kValue fs = some v) :
    keepSpec salt (.obj fs) =
      if isAllowedSystem sysv ∧ v ≠ .null then
        some (.obj [(kValue, .str (sha256_hash (pyStr v) salt)), (kSystem, sysv)])
      else none := by
  rw [keepSpec, hs, hv]

theorem keepStep_ok {salt : LC} {fs : List (LC × Json)} {r : Option Json}
    (h : keepStep salt fs = .ok r) : r = keepSpec salt (.obj fs) := by
  rw [keepStep] at h
  by_cases ht : truthy ((alookup kSystem fs).getD .null) = true
  · rw [if_pos ht] at h
    by_cases hu : isUnhashable ((alookup kSystem fs).getD .null) = true
    · rw [if_pos hu] at h
      simp at h
    · rw [if_neg (by simpa using hu)] at h
      by_cases ha : isAllowedSystem ((alookup kSystem fs).getD .null) = true
      · rw [if_pos ha] at h
        simp only [Except.ok.injEq] at h
        have hsysv : ∃ sysv, alookup kSystem fs = some sysv := by
          cases hs : alookup kSystem fs with
          | none => rw [hs] at ht; simp [truthy] at ht
          | some sysv => exact ⟨sysv, rfl⟩
        obtain ⟨sysv, hs⟩ := hsysv
        rw [hs] at ha
        simp only [Option.getD_some] at ha
        cases hv : alookup kValue fs with
        | none =>
          have hm : pseudonymise_identifier fs salt = [] := by
            rw [pseudonymise_identifier, hv]
          rw [hm] at h
          simp only [List.isEmpty_nil, if_true] at h
          rw [keepSpec_obj_value_none hv]
          exact h.symm
        | some v =>
          by_cases hvn : v = .null
          · subst hvn
            have hm : pseudonymise_identifier fs salt = [] := by
              rw [pseudonymise_identifier, hv]
              rfl
            rw [hm] at h
            simp only [List.isEmpty_nil, if_true] at h
            rw [keepSpec_obj_some_some hs hv, if_neg (by simp)]
            exact h.symm
          · have hm : pseudonymise_identifier fs salt =
                [(kValue, Json.str (sha256_hash (pyStr v) salt)), (kSystem, sysv)] := by
              rw [pseudonymise_identifier, hv]
              show (if v = Json.null then [] else _) = _
              rw [if_neg hvn, hs]
              rfl
            rw [hm] at h
            simp only [List.isEmpty_cons, if_false] at h
            rw [keepSpec_obj_some_some hs hv, if_pos ⟨ha, hvn⟩]
            exact h.symm
      · rw [if_neg ha] at h
        simp only [Except.ok.injEq] at h
        rw [keepSpec_none_of_not_allowed (by simpa using ha)]
        exact h.symm
  · rw [if_neg ht] at h
    simp only [Except.ok.injEq] at h
    rw [keepSpec_none_of_not_allowed (truthy_false_not_allowed (by simpa using ht))]
    exact h.symm

theorem keepIdentifiers_ok {salt : LC} : ∀ {es kept : List Json},
    keepIdentifiers salt es = .ok kept → kept = es.filterMap (keepSpec salt) := by
  intro es
  induction es with
  | nil =>
    intro kept hok
    rw [keepIdentifiers] at hok
    simp only [Except.ok.injEq] at hok
    simp [← hok]
  | cons e rest ih =>
    intro kept hok
    cases e with
    | obj fs =>
      rw [keepIdentifiers] at hok
      cases hks : keepStep salt fs with
      | error er => rw [hks] at hok; simp at hok
      | ok r =>
        rw [hks] at hok
        cases hkr : keepIdentifiers salt rest with
        | error er => rw [hkr] at hok; simp at hok
        | ok ks =>
          rw [hkr] at hok
          simp only [Except.ok.injEq] at hok
          rw [List.filterMap_cons, ← keepStep_ok hks, ← ih hkr, ← hok]
          cases r <;> rfl
    | null => exact absurd (show Except.error PyErr.attributeError = Except.ok kept from hok) (by simp)
    | bool b => exact absurd (show Except.error PyErr.attributeError = Except.ok kept from hok) (by simp)
    | num n => exact absurd (show Except.error PyErr.attributeError = Except.ok kept from hok) (by simp)
    | str s2 => exact absurd (show Except.error PyErr.attributeError = Except.ok kept from hok) (by simp)
    | arr xs => exact absurd (show Except.error PyErr.attributeError = Except.ok kept from hok) (by simp)

/-! ## C1: identifier filtering at any depth -/

/-- The element list the identifier branch iterates over: the list itself
for a JSON array, a singleton for a scalar identifier. -/
def identElems : Json → List Json
  | .arr xs => xs
  | v => [v]

def jsonIsArr : Json → Bool
  | .arr _ => true
  | _ => false

theorem deidEntry_identifier {p : Policy} {s : LC} {o : Int} {c h : Bool} {y : Nat}
    {phi : List LC} (hk : kIdentifier ∈ phi) (v : Json) :
    deidEntry p s o c h y phi kIdentifier v =
      match keepIdentifiers s (identElems v) with
      | .error er => .error er
      | .ok kept =>
        if kept.isEmpty then .ok none
        else .ok (some (if jsonIsArr v then Json.arr kept else kept.headD .null)) := by
  rw [deidEntry, if_pos hk]
  cases v <;> rfl

theorem mem_eraseFirst_of_ne {x k : LC} (hne : x ≠ k) :
    ∀ {l : List LC}, x ∈ l → x ∈ eraseFirst k l := by
  intro l
  induction l with
  | nil => intro hx; simp at hx
  | cons a rest ih =>
    intro hx
    rw [eraseFirst]
    by_cases ha : a = k
    · rw [if_pos ha]
      rcases List.mem_cons.mp hx with hx | hx
      · exact absurd (hx.trans ha) hne
      · exact hx
    · rw [if_neg ha]
      rcases List.mem_cons.mp hx with hx | hx
      · exact hx ▸ List.mem_cons_self a _
      · exact List.mem_cons_of_mem a (ih hx)

theorem identifier_in_phi (tag : Option LC) (sh : Bool) :
    kIdentifier ∈ phiFieldsFor PHI_POLICY tag sh := by
  have hw : (alookup tagStar PHI_POLICY).getD [] = [kIdentifier] := by decide
  have key : ∀ fields : List LC, kIdentifier ∈ fields →
      kIdentifier ∈ (if sh ∧ kBirthDate ∈ fields then eraseFirst kBirthDate fields
                     else fields) := by
    intro fields hmem
    by_cases hc : sh ∧ kBirthDate ∈ fields
    · rw [if_pos hc]
      exact mem_eraseFirst_of_ne (by decide) hmem
    · rw [if_neg hc]
      exact hmem
  cases tag with
  | none => exact key _ (by decide)
  | some t =>
    by_cases ht : t = tagStar
    · subst ht
      refine key _ ?_
      rw [if_pos rfl]
      show kIdentifier ∈ (alookup tagStar PHI_POLICY).getD []
      rw [hw]
      exact List.mem_singleton.mpr rfl
    · refine key _ ?_
      rw [if_neg (fun he => ht (Option.some.inj he))]
      by_cases hb : kIdentifier ∈ (alookup t PHI_POLICY).getD []
      · exact List.mem_append_left _ hb
      · refine List.mem_append_right _ ?_
        rw [hw]
        refine List.mem_filter.mpr ⟨List.mem_singleton.mpr rfl, ?_⟩
        simpa using hb

/-- Modelled from the claim's words (C1): the rewritten `identifier` field as
a function of the original value: element-wise filtering for an array, the
filter of the single element for a scalar (absent when nothing survives). -/
def identSpecOut (salt : LC) (val : Json) : Option Json :=
  match val with
  | .arr es =>
    if (es.filterMap (keepSpec salt)).isEmpty then none
    else some (.arr (es.filterMap (keepSpec salt)))
  | w => keepSpec salt w

theorem identOut_eq (salt : LC) : ∀ v : Json,
    (if ((identElems v).filterMap (keepSpec salt)).isEmpty then none
     else some (if jsonIsArr v then Json.arr ((identElems v).filterMap (keepSpec salt))
                else ((identElems v).filterMap (keepSpec salt)).headD .null)) =
      identSpecOut salt v := by
  intro v
  cases v with
  | arr es => rfl
  | obj fs =>
    show (if (List.filterMap (keepSpec salt) [Json.obj fs]).isEmpty = true then none
          else some (if jsonIsArr (Json.obj fs) then
              Json.arr (List.filterMap (keepSpec salt) [Json.obj fs])
            else (List.filterMap (keepSpec salt) [Json.obj fs]).headD Json.null)) =
        keepSpec salt (Json.obj fs)
    cases hks : keepSpec salt (.obj fs) with
    | none =>
      simp only [List.filterMap_cons, hks, List.filterMap_nil, List.isEmpty_nil, if_true]
    | some m =>
      simp only [List.filterMap_cons, hks, List.filterMap_nil, List.isEmpty_cons,
        Bool.false_eq_true, if_false, jsonIsArr, List.headD_cons]
  | null => rfl
  | bool b => rfl
  | num n => rfl
  | str s => rfl

/-- C1: in every rewritten mapping, the `identifier` field is in the effective
strip set for every type tag (the wildcard policy entry puts it there), and
on success the rewritten `identifier` field is the element-wise filter: an
element survives iff its `system` is present, in the hashed-systems
allowlist, and its `value` is present; a survivor is exactly
`{value: salted hash, system: original system}`; the field is omitted when no
element survives, and a scalar identifier yields the surviving element
itself as a scalar. -/
theorem C1_identifier_filtering
    (salt : LC) (off : Int) (c sh : Bool) (today : Nat)
    (fs out : List (LC × Json)) (val : Json)
    (hnd : (fs.map Prod.fst).Nodup)
    (hval : alookup kIdentifier fs = some val)
    (hok : recursively_deidentify PHI_POLICY salt off c sh today (.obj fs) = .ok (.obj out)) :
    (∀ (tag : Option LC) (sh2 : Bool), kIdentifier ∈ phiFieldsFor PHI_POLICY tag sh2) ∧
    alookup kIdentifier out = identSpecOut salt val := by
  refine ⟨identifier_in_phi, ?_⟩
  obtain ⟨hrt, out2, hout, hdf⟩ := rd_obj_ok_inv hok
  injection hout with hout
  subst hout
  have hdj := deidFields_alookup hnd hdf kIdentifier val hval
  rw [deidEntry_identifier (identifier_in_phi (tagOf fs) sh)] at hdj
  have main : alookup kIdentifier out =
      (if ((identElems val).filterMap (keepSpec salt)).isEmpty then none
       else some (if jsonIsArr val then Json.arr ((identElems val).filterMap (keepSpec salt))
                  else ((identElems val).filterMap (keepSpec salt)).headD Json.null)) := by
    cases hki : keepIdentifiers salt (identElems val) with
    | error er =>
      rw [hki] at hdj
      rcases hdj with ⟨v2, he, _⟩ | ⟨he, _⟩ <;> exact absurd he (by simp)
    | ok kept =>
      have hkept := keepIdentifiers_ok hki
      rw [hki] at hdj
      have hdj2 : (∃ v2, (if kept.isEmpty then (Except.ok none : Except PyErr (Option Json))
            else .ok (some (if jsonIsArr val then Json.arr kept else kept.headD Json.null))) =
              .ok (some v2) ∧
            alookup kIdentifier out = some v2) ∨
          ((if kept.isEmpty then (Except.ok none : Except PyErr (Option Json))
            else .ok (some (if jsonIsArr val then Json.arr kept else kept.headD Json.null))) =
              .ok none ∧
            alookup kIdentifier out = none) := hdj
      subst hkept
      by_cases hke : ((identElems val).filterMap (keepSpec salt)).isEmpty = true
      · rw [if_pos hke]
        rw [if_pos hke] at hdj2
        rcases hdj2 with ⟨v2, he, _⟩ | ⟨_, hlk⟩
        · exact absurd he (by simp)
        · exact hlk
      · rw [if_neg hke]
        rw [if_neg hke] at hdj2
        rcases hdj2 with ⟨v2, he, hlk⟩ | ⟨he, _⟩
        · simp only [Except.ok.injEq, Option.some.injEq] at he
          rw [hlk, he]
        · exact absurd he (by simp)
  exact main.trans (identOut_eq salt val)

def C1salt : LC := "s3cr3t".data

def C1val : Json :=
  .arr [.obj [(kSystem, .str "http://hospital.example.org/mrn".data),
              (kValue, .str "12345".data)],
        .obj [(kValue, .str "999".data)]]

def C1fs : List (LC × Json) :=
  [(kResourceType, .str "Patient".data), (kIdentifier, C1val), ("active".data, .bool true)]

def C1masked : Json :=
  .obj [(kValue, .str "7cb3c7d795a12668".data),
        (kSystem, .str "http://hospital.example.org/mrn".data)]

def C1out : List (LC × Json) :=
  [(kResourceType, .str "Patient".data), (kIdentifier, .arr [C1masked]),
   ("active".data, .bool true)]

theorem C1_identifier_filtering_witness :
    (C1fs.map Prod.fst).Nodup ∧
    alookup kIdentifier C1fs = some C1val ∧
    recursively_deidentify PHI_POLICY C1salt 0 false false 2025 (.obj C1fs) =
      .ok (.obj C1out) ∧
    ((∀ (tag : Option LC) (sh2 : Bool), kIdentifier ∈ phiFieldsFor PHI_POLICY tag sh2) ∧
     alookup kIdentifier C1out = some (Json.arr [C1masked])) := by
  refine ⟨by decide, by decide, by decide, ?_⟩
  have h := C1_identifier_filtering C1salt 0 false false 2025 C1fs C1out C1val
    (by decide) (by decide) (by decide)
  refine ⟨h.1, ?_⟩
  rw [h.2]
  decide

/-! ## C2: safe-harbor collapse -/

theorem validDT_of_mkDT {y mo da hh mi s us : Nat} {dt : PyDateTime}
    (h : mkDT y mo da hh mi s us = some dt) : validDT dt = true := by
  obtain ⟨hdt, hv⟩ := mkDT_some h
  rw [hdt]
  exact hv

theorem parseFhirDate_valid {s : LC} {dt : PyDateTime} {sfx : LC} {frac : Nat}
    (h : parseFhirDate s = some (dt, sfx, frac)) : validDT dt = true := by
  rw [parseFhirDate] at h
  simp only [Option.map_eq_some', Prod.mk.injEq] at h
  obtain ⟨d0, hd0, hdt, _, _⟩ := h
  subst hdt
  by_cases h4 : (stripTz s).1.length = 4
  · rw [if_pos h4] at hd0
    cases hpi : pyInt (stripTz s).1 with
    | none => rw [hpi] at hd0; exact absurd hd0 (by simp)
    | some y0 =>
      rw [hpi] at hd0
      have hd1 : (if y0 ≤ 0 then none else mkDT y0.toNat 1 1 0 0 0 0) = some d0 := hd0
      by_cases hy : y0 ≤ 0
      · rw [if_pos hy] at hd1
        exact absurd hd1 (by simp)
      · rw [if_neg hy] at hd1
        exact validDT_of_mkDT hd1
  · rw [if_neg h4] at hd0
    by_cases h7 : (stripTz s).1.length = 7
    · rw [if_pos h7] at hd0
      cases hym : parseYM (stripTz s).1 with
      | none => rw [hym] at hd0; exact absurd hd0 (by simp)
      | some ym =>
        obtain ⟨y0, m0⟩ := ym
        rw [hym] at hd0
        exact validDT_of_mkDT hd0
    · rw [if_neg h7] at hd0
      by_cases h10 : (stripTz s).1.length = 10
      · rw [if_pos h10] at hd0
        cases hymd : parseYMD (stripTz s).1 with
        | none => rw [hymd] at hd0; exact absurd hd0 (by simp)
        | some ymd =>
          obtain ⟨y0, m0, d1⟩ := ymd
          rw [hymd] at hd0
          exact validDT_of_mkDT hd0
      · rw [if_neg h10] at hd0
        rw [fromIso] at hd0
        cases hymd : parseYMD ((stripTz s).1.take 10) with
        | none => rw [hymd] at hd0; exact absurd hd0 (by simp)
        | some ymd =>
          obtain ⟨y0, m0, d1⟩ := ymd
          rw [hymd] at hd0
          cases hdrop : (stripTz s).1.drop 10 with
          | nil =>
            rw [hdrop] at hd0
            exact validDT_of_mkDT hd0
          | cons c t =>
            rw [hdrop] at hd0
            by_cases hc : c = 'T'
            · subst hc
              have hd1 : (match parseTime t with
                  | some (t1, t2, t3, t4) => mkDT y0 m0 d1 t1 t2 t3 t4
                  | none => none) = some d0 := hd0
              cases hpt : parseTime t with
              | none => rw [hpt] at hd1; exact absurd hd1 (by simp)
              | some q =>
                obtain ⟨hh, mi, ss, us⟩ := q
                rw [hpt] at hd1
                exact validDT_of_mkDT hd1
            · exact absurd hd0 (by cases c; simp_all)

theorem validDT_year_lt {d : PyDateTime} (h : validDT d = true) : d.year < 10000 := by
  simp only [validDT, Bool.and_eq_true, decide_eq_true_eq] at h
  omega

theorem binAge_pad4 {today y : Nat} (hy : y < 10000) :
    binAge today (pad4 y) =
      if (90 : Int) ≤ (today : Int) - (y : Int) then "1900".data else pad4 y := by
  rw [binAge]
  have ht : (pad4 y).take 4 = pad4 y := List.take_of_length_le (by rw [pad4_length])
  rw [ht, pyInt_digits (allDigits_pad4 y) (by simp [pad4]), digitsToNat_pad4 hy]

/-- C2: with `safe_harbor=True`, `deidentify_resource` forces offset 0 and
date collapse regardless of the caller's `shift_days`, so every recognized
temporal string field (the heuristic fires and the parse succeeds) of a
rewritten mapping that is not stripped comes out as the bare 4-digit year —
and for `birthDate`, as exactly `"1900"` when the current year minus the
birth year is at least 90, the year string otherwise. -/
theorem C2_safe_harbor_year_collapse
    (p : Policy) (salt : LC) (sd : Option Int) (today : Nat)
    (fs out : List (LC × Json)) (k sv : LC) (dt : PyDateTime) (sfx : LC) (frac : Nat)
    (hnd : (fs.map Prod.fst).Nodup)
    (hk : alookup k fs = some (.str sv))
    (hnphi : k ∉ phiFieldsFor p (tagOf fs) true)
    (htr : dateTrigger k sv = true)
    (hp : parseFhirDate sv = some (dt, sfx, frac))
    (hok : deidentify_resource p (.obj fs) salt sd true today = .ok (.obj out)) :
    (∀ (fs2 : List (LC × Json)) (salt2 : LC) (sd2 : Option Int) (y2 : Nat),
      deidentify_resource p (.obj fs2) salt2 sd2 true y2 =
        recursively_deidentify p salt2 0 true true y2 (.obj fs2)) ∧
    alookup k out =
      some (.str (if k = kBirthDate ∧ (90 : Int) ≤ (today : Int) - (dt.year : Int)
                  then "1900".data else pad4 dt.year)) := by
  refine ⟨fun _ _ _ _ => rfl, ?_⟩
  have hok2 : recursively_deidentify p salt 0 true true today (.obj fs) = .ok (.obj out) := hok
  obtain ⟨hrt, out2, hout, hdf⟩ := rd_obj_ok_inv hok2
  injection hout with hout
  subst hout
  have hs : shift_date sv 0 true = .ok (pad4 dt.year) := by
    rw [shift_date, hp]
    rfl
  have hylt : dt.year < 10000 := validDT_year_lt (parseFhirDate_valid hp)
  have hde := @deidEntry_str_shifted p salt 0 true true today
    (phiFieldsFor p (tagOf fs) true) k sv (pad4 dt.year) hnphi htr (dt, sfx, frac) hp hs
  have hdj := deidFields_alookup hnd hdf k (.str sv) hk
  rw [hde] at hdj
  have hval : (if (true : Bool) ∧ k = kBirthDate then binAge today (pad4 dt.year)
        else pad4 dt.year) =
      (if k = kBirthDate ∧ (90 : Int) ≤ (today : Int) - (dt.year : Int)
       then "1900".data else pad4 dt.year) := by
    by_cases hkb : k = kBirthDate
    · rw [if_pos ⟨rfl, hkb⟩, binAge_pad4 hylt]
      by_cases hage : (90 : Int) ≤ (today : Int) - (dt.year : Int)
      · rw [if_pos hage, if_pos ⟨hkb, hage⟩]
      · rw [if_neg hage, if_neg (fun hcon => hage hcon.2)]
    · rw [if_neg (fun hcon => hkb hcon.2), if_neg (fun hcon => hkb hcon.1)]
  rw [hval] at hdj
  rcases hdj with ⟨v2, he, hlk⟩ | ⟨he, _⟩
  · simp only [Except.ok.injEq, Option.some.injEq] at he
    rw [hlk, ← he]
  · exact absurd he (by simp)

def C2fs : List (LC × Json) :=
  [(kResourceType, .str "Patient".data), (kBirthDate, .str "1930-01-05".data)]

def C2out : List (LC × Json) :=
  [(kResourceType, .str "Patient".data), (kBirthDate, .str "1900".data)]

theorem C2_safe_harbor_year_collapse_witness :
    ((C2fs.map Prod.fst).Nodup ∧
     alookup kBirthDate C2fs = some (.str "1930-01-05".data) ∧
     kBirthDate ∉ phiFieldsFor PHI_POLICY (tagOf C2fs) true ∧
     dateTrigger kBirthDate "1930-01-05".data = true ∧
     parseFhirDate "1930-01-05".data = some (⟨1930, 1, 5, 0, 0, 0, 0⟩, [], 0) ∧
     deidentify_resource PHI_POLICY (.obj C2fs) "s".data (some 366) true 2025 =
       .ok (.obj C2out)) ∧
    ((∀ (fs2 : List (LC × Json)) (salt2 : LC) (sd2 : Option Int) (y2 : Nat),
       deidentify_resource PHI_POLICY (.obj fs2) salt2 sd2 true y2 =
         recursively_deidentify PHI_POLICY salt2 0 true true y2 (.obj fs2)) ∧
     alookup kBirthDate C2out = some (.str "1900".data)) := by
  refine ⟨⟨by decide, by decide, by decide, by decide, by decide, by decide⟩, ?_⟩
  have h := C2_safe_harbor_year_collapse PHI_POLICY "s".data (some 366) 2025 C2fs C2out
    kBirthDate "1930-01-05".data ⟨1930, 1, 5, 0, 0, 0, 0⟩ [] 0
    (by decide) (by decide) (by decide) (by decide) (by decide) (by decide)
  refine ⟨h.1, ?_⟩
  rw [h.2]
  decide

/-! ## C7: unparseable date-like strings -/

/-- C7 counterexample: `birthDate` is date-like and `"oops"` does not parse,
yet the field is not left unchanged — it sits in the strip set (safe harbor
off), so the strip branch runs first and drops it. -/
theorem C7_counterexample_stripped_unparseable :
    dateTrigger kBirthDate "oops".data = true ∧
    parseFhirDate "oops".data = none ∧
    recursively_deidentify PHI_POLICY "s".data 0 false false 2025
      (.obj [(kResourceType, .str "Patient".data), (kBirthDate, .str "oops".data)]) =
      .ok (.obj [(kResourceType, .str "Patient".data)]) := by
  refine ⟨by decide, by decide, by decide⟩

/-- C7 amended: a string field that is not in the effective strip set and
whose value does not parse as a FHIR instant (`_parse_fhir_date` returns
no instant instead of raising) is carried into the output unchanged,
whether or not the date heuristic fired on it. -/
theorem C7_unparseable_unchanged
    (p : Policy) (salt : LC) (off : Int) (c sh : Bool) (today : Nat)
    (fs out : List (LC × Json)) (k sv : LC)
    (hnd : (fs.map Prod.fst).Nodup)
    (hk : alookup k fs = some (.str sv))
    (hnphi : k ∉ phiFieldsFor p (tagOf fs) sh)
    (hp : parseFhirDate sv = none)
    (hok : recursively_deidentify p salt off c sh today (.obj fs) = .ok (.obj out)) :
    alookup k out = some (.str sv) := by
  obtain ⟨hrt, out2, hout, hdf⟩ := rd_obj_ok_inv hok
  injection hout with hout
  subst hout
  have hdj := deidFields_alookup hnd hdf k (.str sv) hk
  rw [deidEntry_str_unchanged hnphi (Or.inr hp)] at hdj
  rcases hdj with ⟨v2, he, hlk⟩ | ⟨he, _⟩
  · simp only [Except.ok.injEq, Option.some.injEq] at he
    rw [hlk, ← he]
  · exact absurd he (by simp)

def C7fs : List (LC × Json) :=
  [(kResourceType, .str "Patient".data),
   ("deceasedDateTime".data, .str "not-a-date".data)]

theorem C7_unparseable_unchanged_witness :
    ((C7fs.map Prod.fst).Nodup ∧
     alookup "deceasedDateTime".data C7fs = some (.str "not-a-date".data) ∧
     "deceasedDateTime".data ∉ phiFieldsFor PHI_POLICY (tagOf C7fs) false ∧
     parseFhirDate "not-a-date".data = none ∧
     recursively_deidentify PHI_POLICY "s".data 7 false false 2025 (.obj C7fs) =
       .ok (.obj C7fs)) ∧
    alookup "deceasedDateTime".data C7fs = some (.str "not-a-date".data) :=
  ⟨⟨by decide, by decide, by decide, by decide, by decide⟩,
   C7_unparseable_unchanged PHI_POLICY "s".data 7 false false 2025 C7fs C7fs
     "deceasedDateTime".data "not-a-date".data
     (by decide) (by decide) (by decide) (by decide) (by decide)⟩

/-! ## C9: determinism without safe harbor -/

theorem rd_arr_eq (p : Policy) (s : LC) (o : Int) (c h : Bool) (y : Nat) (xs : List Json) :
    recursively_deidentify p s o c h y (.arr xs) =
      match deidList p s o c h y xs with
      | .ok out => .ok (.arr out)
      | .error er => .error er := rfl

theorem deidList_cons (p : Policy) (s : LC) (o : Int) (c h : Bool) (y : Nat)
    (x : Json) (rest : List Json) :
    deidList p s o c h y (x :: rest) =
      match recursively_deidentify p s o c h y x with
      | .ok y2 =>
        match deidList p s o c h y rest with
        | .ok ys => .ok (y2 :: ys)
        | .error er => .error er
      | .error er => .error er := rfl

/-- With `safe_harbor=False` the current year is dead in the date branch. -/
theorem dateStep_sh_false (o : Int) (c : Bool) (y1 y2 : Nat) (k : LC) (v : Json) :
    dateStep o c false y1 k v = dateStep o c false y2 k v := by
  cases v <;> rfl

theorem deidEntry_sh_false {p : Policy} {s : LC} {o : Int} {c : Bool} {y1 y2 : Nat}
    {phi : List LC} {k : LC} {v : Json}
    (hrd : recursively_deidentify p s o c false y1 v =
      recursively_deidentify p s o c false y2 v) :
    deidEntry p s o c false y1 phi k v = deidEntry p s o c false y2 phi k v := by
  rw [deidEntry, deidEntry]
  by_cases hk : k ∈ phi
  · rw [if_pos hk, if_pos hk]
  · rw [if_neg hk, if_neg hk, dateStep_sh_false o c y1 y2 k v, hrd]

mutual

theorem rd_sh_false (p : Policy) (s : LC) (o : Int) (c : Bool) (y1 y2 : Nat) :
    ∀ v : Json, recursively_deidentify p s o c false y1 v =
      recursively_deidentify p s o c false y2 v
  | .null => rfl
  | .bool _ => rfl
  | .num _ => rfl
  | .str _ => rfl
  | .arr xs => by
    rw [rd_arr_eq, rd_arr_eq, deidList_sh_false p s o c y1 y2 xs]
  | .obj fs => by
    by_cases hrt : rtOk fs = true
    · rw [rd_obj_eq p s o c false y1 fs hrt, rd_obj_eq p s o c false y2 fs hrt,
        deidFields_sh_false p s o c y1 y2 (phiFieldsFor p (tagOf fs) false) fs]
    · rw [rd_obj_err p s o c false y1 fs (by simpa using hrt),
        rd_obj_err p s o c false y2 fs (by simpa using hrt)]

theorem deidFields_sh_false (p : Policy) (s : LC) (o : Int) (c : Bool) (y1 y2 : Nat)
    (phi : List LC) :
    ∀ fs : List (LC × Json),
      deidFields p s o c false y1 phi fs = deidFields p s o c false y2 phi fs
  | [] => rfl
  | (k, v) :: rest => by
    rw [deidFields_cons, deidFields_cons,
      deidEntry_sh_false (rd_sh_false p s o c y1 y2 v),
      deidFields_sh_false p s o c y1 y2 phi rest]

theorem deidList_sh_false (p : Policy) (s : LC) (o : Int) (c : Bool) (y1 y2 : Nat) :
    ∀ xs : List Json, deidList p s o c false y1 xs = deidList p s o c false y2 xs
  | [] => rfl
  | x :: rest => by
    rw [deidList_cons, deidList_cons, rd_sh_false p s o c y1 y2 x,
      deidList_sh_false p s o c y1 y2 rest]

end

/-- C9 counterexample: with safe harbor on, the output depends on the
current year (`datetime.date.today()`), an input outside the argument
list: the same call binning `birthDate "1936"` differs between 2025
and 2026. -/
theorem C9_counterexample_today_dependence :
    deidentify_resource PHI_POLICY
      (.obj [(kResourceType, .str "Patient".data), (kBirthDate, .str "1936".data)])
      "s".data none true 2025 ≠
    deidentify_resource PHI_POLICY
      (.obj [(kResourceType, .str "Patient".data), (kBirthDate, .str "1936".data)])
      "s".data none true 2026 := by decide

theorem deidentify_resource_obj_sh_false (p : Policy) (fs : List (LC × Json))
    (salt : LC) (sd : Option Int) (y : Nat) :
    deidentify_resource p (.obj fs) salt sd false y =
      match sd with
      | some n => recursively_deidentify p salt n false false y (.obj fs)
      | none =>
        match patientIdOf fs with
        | .str pid =>
          recursively_deidentify p salt (deterministic_offset salt pid) false false y
            (.obj fs)
        | _ => .error .typeError := by
  cases sd with
  | some n => rfl
  | none =>
    show (match (match patientIdOf fs with
          | Json.str pid => Except.ok (deterministic_offset salt pid, false)
          | _ => (Except.error PyErr.typeError : Except PyErr (Int × Bool))) with
        | .ok oc => recursively_deidentify p salt oc.1 oc.2 false y (.obj fs)
        | .error er => .error er) = _
    cases hpid : patientIdOf fs <;> rfl

/-- C9 amended: without safe harbor, `deidentify_resource` reads no hidden
state — in particular not the current date — so its result is a function of
(document, salt, shift_days) alone: any two current years give identical
output. -/
theorem C9_deterministic_without_safe_harbor
    (p : Policy) (resource : Json) (salt : LC) (sd : Option Int) (y1 y2 : Nat) :
    deidentify_resource p resource salt sd false y1 =
      deidentify_resource p resource salt sd false y2 := by
  cases resource
  case obj fs =>
    rw [deidentify_resource_obj_sh_false, deidentify_resource_obj_sh_false]
    cases sd with
    | some n => exact rd_sh_false p salt n false y1 y2 (.obj fs)
    | none =>
      cases hpid : patientIdOf fs
      case str pid =>
        exact rd_sh_false p salt (deterministic_offset salt pid) false y1 y2 (.obj fs)
      all_goals rfl
  all_goals rfl

/-! ## C8: which inputs the traversal survives -/

/-- One identifier element the loop can process without raising: it must be
a dict (`ident.get`), and a truthy `system` must be hashable (set
membership of a dict or list raises `TypeError`). -/
def elemSafe : Json → Bool
  | .obj fs2 => !(truthy ((alookup kSystem fs2).getD .null) &&
                  isUnhashable ((alookup kSystem fs2).getD .null))
  | _ => false

def stripSafe (k : LC) (v : Json) : Bool :=
  if k = kIdentifier then (identElems v).all elemSafe else true

/-- Mirror of `dateStep`: `some b` when the date branch would run, with `b`
recording that the shift cannot overflow (collapse never overflows). -/
def dateSafe (o : Int) (c : Bool) (k : LC) (v : Json) : Option Bool :=
  match v with
  | .str sv =>
    if dateTrigger k sv then
      match parseFhirDate sv with
      | some r => some (c || (addDays r.1 o).isSome)
      | none => none
    else none
  | _ => none

mutual

/-- The inputs on which the traversal raises nothing: at every mapping the
`resourceType` is hashable, a stripped `identifier` passes `elemSafe`
element-wise, and every triggered, parsed date string survives the shift. -/
def safeInput (p : Policy) (o : Int) (c sh : Bool) : Json → Bool
  | .obj fs => rtOk fs && safeFields p o c sh (phiFieldsFor p (tagOf fs) sh) fs
  | .arr xs => safeList p o c sh xs
  | _ => true

def safeFields (p : Policy) (o : Int) (c sh : Bool) (phi : List LC) :
    List (LC × Json) → Bool
  | [] => true
  | (k, v) :: rest =>
    (if k ∈ phi then stripSafe k v
     else
       match dateSafe o c k v with
       | some b => b
       | none => safeInput p o c sh v) &&
    safeFields p o c sh phi rest

def safeList (p : Policy) (o : Int) (c sh : Bool) : List Json → Bool
  | [] => true
  | x :: xs => safeInput p o c sh x && safeList p o c sh xs

end

theorem keepStep_total {salt : LC} {fs2 : List (LC × Json)}
    (h : elemSafe (.obj fs2) = true) : ∃ r, keepStep salt fs2 = .ok r := by
  simp only [keepStep]
  by_cases ht : truthy ((alookup kSystem fs2).getD .null) = true
  · rw [if_pos ht]
    by_cases hu : isUnhashable ((alookup kSystem fs2).getD .null) = true
    · exfalso
      simp only [elemSafe] at h
      rw [ht, hu] at h
      simp at h
    · rw [if_neg hu]
      by_cases ha : isAllowedSystem ((alookup kSystem fs2).getD .null) = true
      · rw [if_pos ha]
        exact ⟨_, rfl⟩
      · rw [if_neg ha]
        exact ⟨none, rfl⟩
  · rw [if_neg ht]
    exact ⟨none, rfl⟩

theorem keepIdentifiers_total {salt : LC} : ∀ {es : List Json},
    es.all elemSafe = true → ∃ ks, keepIdentifiers salt es = .ok ks := by
  intro es
  induction es with
  | nil => intro _; exact ⟨[], rfl⟩
  | cons e rest ih =>
    intro h
    simp only [List.all_cons, Bool.and_eq_true] at h
    obtain ⟨h1, h2⟩ := h
    obtain ⟨ks, hks⟩ := ih h2
    cases e
    case obj fs2 =>
      obtain ⟨r, hr⟩ := @keepStep_total salt fs2 h1
      have he : keepIdentifiers salt (Json.obj fs2 :: rest) =
          match keepStep salt fs2 with
          | .error er => .error er
          | .ok r2 =>
            match keepIdentifiers salt rest with
            | .ok ks2 => .ok (match r2 with | some j => j :: ks2 | none => ks2)
            | .error er => .error er := rfl
      cases r with
      | some j =>
        refine ⟨j :: ks, ?_⟩
        rw [he, hr, hks]
      | none =>
        refine ⟨ks, ?_⟩
        rw [he, hr, hks]
    all_goals exact absurd h1 (by simp [elemSafe])

theorem stripStep_identifier (salt : LC) (v : Json) :
    stripStep salt kIdentifier v =
      match keepIdentifiers salt (identElems v) with
      | .error er => .error er
      | .ok kept =>
        if kept.isEmpty then .ok none
        else .ok (some (if jsonIsArr v then Json.arr kept else kept.headD .null)) := by
  cases v <;> rfl

theorem stripStep_eq (salt k : LC) (v : Json) :
    stripStep salt k v =
      if k = kIdentifier then
        (match keepIdentifiers salt (identElems v) with
         | .error er => .error er
         | .ok kept =>
           if kept.isEmpty then .ok none
           else .ok (some (if jsonIsArr v then Json.arr kept else kept.headD .null)))
      else .ok none := by
  cases v <;> rfl

theorem stripStep_total (salt : LC) {k : LC} {v : Json}
    (h : stripSafe k v = true) : ∃ r, stripStep salt k v = .ok r := by
  by_cases hk : k = kIdentifier
  · subst hk
    rw [stripStep_identifier]
    rw [stripSafe, if_pos rfl] at h
    obtain ⟨ks, hks⟩ := keepIdentifiers_total h
    rw [hks]
    show ∃ r, (if ks.isEmpty = true then (Except.ok none : Except PyErr (Option Json))
        else .ok (some (if jsonIsArr v then Json.arr ks else ks.headD .null))) = .ok r
    by_cases he : ks.isEmpty = true
    · rw [if_pos he]
      exact ⟨none, rfl⟩
    · rw [if_neg he]
      exact ⟨_, rfl⟩
  · rw [stripStep_eq, if_neg hk]
    exact ⟨none, rfl⟩

theorem dateStep_of_dateSafe_none {o : Int} {c sh2 : Bool} {y : Nat} {k : LC} {v : Json}
    (h : dateSafe o c k v = none) : dateStep o c sh2 y k v = none := by
  cases v
  case str sv =>
    have hd : (if dateTrigger k sv then
        (match parseFhirDate sv with
         | some r => some (c || (addDays r.1 o).isSome)
         | none => none)
      else none) = none := h
    by_cases htr : dateTrigger k sv = true
    · rw [if_pos htr] at hd
      cases hp : parseFhirDate sv with
      | none => exact dateStep_str_unparsed hp
      | some r => rw [hp] at hd; simp at hd
    · exact dateStep_str_untriggered (by simpa using htr)
  all_goals rfl

theorem dateStep_of_dateSafe_true {o : Int} {c sh2 : Bool} {y : Nat} {k : LC} {v : Json}
    (h : dateSafe o c k v = some true) :
    ∃ sv2 : LC, dateStep o c sh2 y k v = some (.ok (some (.str sv2))) := by
  cases v
  case str sv =>
    have hd : (if dateTrigger k sv then
        (match parseFhirDate sv with
         | some r => some (c || (addDays r.1 o).isSome)
         | none => none)
      else none) = some true := h
    by_cases htr : dateTrigger k sv = true
    · rw [if_pos htr] at hd
      cases hp : parseFhirDate sv with
      | none => rw [hp] at hd; simp at hd
      | some r =>
        obtain ⟨dt, sfx, frac⟩ := r
        rw [hp] at hd
        have hb : (c || (addDays dt o).isSome) = true := Option.some.inj hd
        have hsd : ∃ s2, shift_date sv o c = .ok s2 := by
          rw [shift_date, hp]
          show ∃ s2, (if c then Except.ok (pad4 dt.year)
              else
                match addDays dt o with
                | some shifted => Except.ok (formatFhirDate sv shifted sfx frac)
                | none => Except.error PyErr.overflowError) = .ok s2
          by_cases hc : c = true
          · rw [if_pos hc]
            exact ⟨_, rfl⟩
          · rw [if_neg hc]
            have hiso : (addDays dt o).isSome = true := by
              rw [Bool.or_eq_true] at hb
              rcases hb with hb | hb
              · exact absurd hb hc
              · exact hb
            obtain ⟨shifted, hsh⟩ := Option.isSome_iff_exists.mp hiso
            rw [hsh]
            exact ⟨_, rfl⟩
        obtain ⟨s2, hs2⟩ := hsd
        rw [dateStep_str_parsed htr hp, hs2]
        exact ⟨_, rfl⟩
    · rw [if_neg htr] at hd
      simp at hd
  all_goals exact absurd h (by simp [dateSafe])

mutual

theorem rd_total (p : Policy) (s : LC) (o : Int) (c sh : Bool) (y : Nat) :
    ∀ v : Json, safeInput p o c sh v = true →
      ∃ r, recursively_deidentify p s o c sh y v = .ok r
  | .null, _ => ⟨.null, rfl⟩
  | .bool b, _ => ⟨.bool b, rfl⟩
  | .num n, _ => ⟨.num n, rfl⟩
  | .str sv, _ => ⟨.str sv, rfl⟩
  | .arr xs, h => by
    have h2 : safeList p o c sh xs = true := h
    obtain ⟨ys, hys⟩ := deidList_total p s o c sh y xs h2
    refine ⟨.arr ys, ?_⟩
    rw [rd_arr_eq, hys]
  | .obj fs, h => by
    have h2 : (rtOk fs && safeFields p o c sh (phiFieldsFor p (tagOf fs) sh) fs) = true := h
    rw [Bool.and_eq_true] at h2
    obtain ⟨out, hout⟩ := deidFields_total p s o c sh y (phiFieldsFor p (tagOf fs) sh) fs h2.2
    refine ⟨.obj out, ?_⟩
    rw [rd_obj_eq p s o c sh y fs h2.1, hout]

theorem deidFields_total (p : Policy) (s : LC) (o : Int) (c sh : Bool) (y : Nat)
    (phi : List LC) :
    ∀ fs : List (LC × Json), safeFields p o c sh phi fs = true →
      ∃ out, deidFields p s o c sh y phi fs = .ok out
  | [], _ => ⟨[], rfl⟩
  | (k, v) :: rest, h => by
    have h2 : ((if k ∈ phi then stripSafe k v
        else
          match dateSafe o c k v with
          | some b => b
          | none => safeInput p o c sh v) &&
        safeFields p o c sh phi rest) = true := h
    rw [Bool.and_eq_true] at h2
    obtain ⟨h1, hrest⟩ := h2
    obtain ⟨out, hout⟩ := deidFields_total p s o c sh y phi rest hrest
    by_cases hk : k ∈ phi
    · rw [if_pos hk] at h1
      obtain ⟨r, hr⟩ := stripStep_total s h1
      cases r with
      | some v2 =>
        refine ⟨(k, v2) :: out, ?_⟩
        rw [deidFields_cons, deidEntry, if_pos hk, hr, hout]
      | none =>
        refine ⟨out, ?_⟩
        rw [deidFields_cons, deidEntry, if_pos hk, hr, hout]
    · rw [if_neg hk] at h1
      cases hds : dateSafe o c k v with
      | none =>
        rw [hds] at h1
        have h1' : safeInput p o c sh v = true := h1
        obtain ⟨rv, hrv⟩ := rd_total p s o c sh y v h1'
        refine ⟨(k, rv) :: out, ?_⟩
        rw [deidFields_cons, deidEntry_not_phi hk, dateStep_of_dateSafe_none hds, hrv, hout]
      | some b =>
        rw [hds] at h1
        have hb : b = true := h1
        subst hb
        obtain ⟨sv2, hds2⟩ := @dateStep_of_dateSafe_true o c sh y k v hds
        refine ⟨(k, .str sv2) :: out, ?_⟩
        rw [deidFields_cons, deidEntry_not_phi hk, hds2, hout]

theorem deidList_total (p : Policy) (s : LC) (o : Int) (c sh : Bool) (y : Nat) :
    ∀ xs : List Json, safeList p o c sh xs = true →
      ∃ ys, deidList p s o c sh y xs = .ok ys
  | [], _ => ⟨[], rfl⟩
  | x :: rest, h => by
    have h2 : (safeInput p o c sh x && safeList p o c sh rest) = true := h
    rw [Bool.and_eq_true] at h2
    obtain ⟨rx, hrx⟩ := rd_total p s o c sh y x h2.1
    obtain ⟨ys, hys⟩ := deidList_total p s o c sh y rest h2.2
    refine ⟨rx :: ys, ?_⟩
    rw [deidList_cons, hrx, hys]

end

/-- C8 counterexample: a perfectly well-formed tree of mappings, sequences
and scalars on which the traversal raises: a scalar `identifier` value makes
the loop call `.get` on a string (`AttributeError`). -/
theorem C8_counterexample_scalar_identifier :
    recursively_deidentify PHI_POLICY "s".data 0 false false 2025
      (.obj [(kIdentifier, .str "x".data)]) = .error .attributeError := by decide

/-- C8 amended: the traversal (and the driver, on a mapping with an explicit
offset) completes without an error on every tree that passes `safeInput`:
hashable `resourceType` everywhere, identifier elements that are dicts whose
truthy `system` is hashable, and no date shift past the calendar range. -/
theorem C8_totality_on_safe_inputs
    (p : Policy) (salt : LC) (o : Int) (c sh : Bool) (today : Nat) :
    (∀ v : Json, safeInput p o c sh v = true →
      ∃ r, recursively_deidentify p salt o c sh today v = .ok r) ∧
    (∀ (fs : List (LC × Json)) (n : Int),
      safeInput p (if sh then 0 else n) (if sh then true else false) sh (.obj fs) = true →
      ∃ r, deidentify_resource p (.obj fs) salt (some n) sh today = .ok r) := by
  refine ⟨fun v h => rd_total p salt o c sh today v h, ?_⟩
  intro fs n h
  cases sh with
  | false =>
    have h' : safeInput p n false false (.obj fs) = true := h
    obtain ⟨r, hr⟩ := rd_total p salt n false false today (.obj fs) h'
    exact ⟨r, hr⟩
  | true =>
    have h' : safeInput p 0 true true (.obj fs) = true := h
    obtain ⟨r, hr⟩ := rd_total p salt 0 true true today (.obj fs) h'
    exact ⟨r, hr⟩

def C8fs : List (LC × Json) :=
  [(kResourceType, .str "Patient".data),
   (kIdentifier, .arr [.obj [(kSystem, .str "urn:system:mrn".data),
                             (kValue, .str "42".data)]]),
   ("deceasedDateTime".data, .str "2020-01-10".data),
   ("contained".data, .arr [.obj [(kResourceType, .str "Observation".data),
                                  ("status".data, .str "final".data)]])]

theorem C8_totality_on_safe_inputs_witness :
    safeInput PHI_POLICY 5 false false (.obj C8fs) = true ∧
    (∃ r, recursively_deidentify PHI_POLICY "s".data 5 false false 2025 (.obj C8fs) = .ok r) ∧
    (∃ r, deidentify_resource PHI_POLICY (.obj C8fs) "s".data (some 5) false 2025 = .ok r) :=
  ⟨by decide,
   (C8_totality_on_safe_inputs PHI_POLICY "s".data 5 false false 2025).1 (.obj C8fs) (by decide),
   (C8_totality_on_safe_inputs PHI_POLICY "s".data 5 false false 2025).2 C8fs 5 (by decide)⟩

/-! ## C10: what the date heuristic recognizes -/

theorem isDigitCh_mod (n : Nat) : isDigitCh (digitCh (n % 10)) = true :=
  isDigitCh_digitCh (Nat.mod_lt _ (by decide))

/-- A bare 4-character year never matches `FHIR_DATE_RE`. -/
theorem fhirDateMatch_len4 : ∀ s : LC, s.length = 4 → fhirDateMatch s = false := by
  intro s hs
  cases s with
  | nil => simp at hs
  | cons a t =>
    cases t with
    | nil => simp at hs
    | cons b t2 =>
      cases t2 with
      | nil => simp at hs
      | cons c t3 =>
        cases t3 with
        | nil => simp at hs
        | cons d t4 =>
          cases t4 with
          | nil => rfl
          | cons e t5 => simp only [List.length_cons, List.length_nil] at hs; omega

theorem tzHM_pads (a b : Nat) : tzHM (pad2 a ++ ':' :: pad2 b) = true := by
  show tzHM [digitCh (a / 10 % 10), digitCh (a % 10), ':',
    digitCh (b / 10 % 10), digitCh (b % 10)] = true
  simp [tzHM, isDigitCh_mod]

theorem tzTail_render (tz : Option TzS) : tzTail (tzRender tz) = true := by
  cases tz with
  | none => rfl
  | some t =>
    cases t with
    | z => rfl
    | pl hh mm => exact tzHM_pads hh mm
    | mi hh mm => exact tzHM_pads hh mm

theorem allDigits_mem {ds : LC} (h : allDigits ds = true) :
    ∀ x ∈ ds, isDigitCh x = true := by
  rw [allDigits, List.all_eq_true] at h
  exact h

/-- The fraction condition of `validShape`, as a standalone predicate. -/
def fracOk : Option LC → Prop
  | none => True
  | some ds => 1 ≤ ds.length ∧ ds.length ≤ 6 ∧ allDigits ds = true

def fracValidB : Option LC → Bool
  | none => true
  | some ds => 1 ≤ ds.length && ds.length ≤ 6 && allDigits ds

def tzValidB : Option TzS → Bool
  | none => true
  | some t => validTz t

theorem fracOk_of_valid {frac : Option LC} (h : fracValidB frac = true) : fracOk frac := by
  cases frac with
  | none => trivial
  | some ds =>
    have hb : ((decide (1 ≤ ds.length) && decide (ds.length ≤ 6)) && allDigits ds) = true := h
    simp only [Bool.and_eq_true, decide_eq_true_eq] at hb
    exact ⟨hb.1.1, hb.1.2, hb.2⟩

theorem fracTail_render (frac : Option LC) (tz : Option TzS)
    (hf : fracOk frac) :
    fracTail (fracRender frac ++ tzRender tz) = true := by
  cases frac with
  | none =>
    show fracTail (tzRender tz) = true
    cases tz with
    | none => rfl
    | some t =>
      cases t with
      | z => rfl
      | pl hh mm => exact tzHM_pads hh mm
      | mi hh mm => exact tzHM_pads hh mm
  | some ds =>
    obtain ⟨h1, h2, h3⟩ := hf
    have hth : fracTail ('.' :: (ds ++ tzRender tz)) =
        (1 ≤ ((ds ++ tzRender tz).takeWhile isDigitCh).length &&
         ((ds ++ tzRender tz).takeWhile isDigitCh).length ≤ 6 &&
         tzTail ((ds ++ tzRender tz).drop
           ((ds ++ tzRender tz).takeWhile isDigitCh).length)) := rfl
    show fracTail ('.' :: (ds ++ tzRender tz)) = true
    rw [hth]
    have htw : (ds ++ tzRender tz).takeWhile isDigitCh =
        ds ++ (tzRender tz).takeWhile isDigitCh :=
      List.takeWhile_append_of_pos (fun a ha => allDigits_mem h3 a ha)
    have htz : (tzRender tz).takeWhile isDigitCh = [] := by
      cases tz with
      | none => rfl
      | some t => cases t with
        | z => rfl
        | pl hh mm => rfl
        | mi hh mm => rfl
    rw [htw, htz, List.append_nil, List.drop_left, tzTail_render]
    simp [h1, h2]

/-- Every valid non-year shape of the grammar does match `FHIR_DATE_RE`. -/
theorem fhirDateMatch_render (sp : FShape) (hv : validShape sp = true)
    (hny : ∀ y2, sp ≠ .year y2) : fhirDateMatch (render sp) = true := by
  cases sp with
  | year y => exact absurd rfl (hny y)
  | ym y m =>
    show fhirDateMatch [digitCh (y / 1000 % 10), digitCh (y / 100 % 10), digitCh (y / 10 % 10),
      digitCh (y % 10), '-', digitCh (m / 10 % 10), digitCh (m % 10)] = true
    simp [fhirDateMatch, isDigitCh_mod]
  | ymd y m d =>
    show fhirDateMatch [digitCh (y / 1000 % 10), digitCh (y / 100 % 10), digitCh (y / 10 % 10),
      digitCh (y % 10), '-', digitCh (m / 10 % 10), digitCh (m % 10), '-',
      digitCh (d / 10 % 10), digitCh (d % 10)] = true
    simp [fhirDateMatch, isDigitCh_mod]
  | dt y m d hh mi ss frac tz =>
    have hfr : fracOk frac := by
      have hv' : ((((((decide (y < 10000) && decide (m < 100)) && decide (d < 100)) &&
          decide (hh < 100)) && decide (mi < 100)) && decide (ss < 100)) &&
          fracValidB frac && tzValidB tz) = true := hv
      simp only [Bool.and_eq_true] at hv'
      obtain ⟨⟨_, hfracb⟩, _⟩ := hv'
      exact fracOk_of_valid hfracb
    show fhirDateMatch (digitCh (y / 1000 % 10) :: digitCh (y / 100 % 10) ::
      digitCh (y / 10 % 10) :: digitCh (y % 10) :: '-' ::
      digitCh (m / 10 % 10) :: digitCh (m % 10) :: '-' ::
      digitCh (d / 10 % 10) :: digitCh (d % 10) :: 'T' ::
      digitCh (hh / 10 % 10) :: digitCh (hh % 10) :: ':' ::
      digitCh (mi / 10 % 10) :: digitCh (mi % 10) :: ':' ::
      digitCh (ss / 10 % 10) :: digitCh (ss % 10) ::
      (fracRender frac ++ tzRender tz)) = true
    simp only [fhirDateMatch, isDigitCh_mod, Bool.and_eq_true, Bool.true_and, Bool.and_true]
    show secTail (':' :: digitCh (ss / 10 % 10) :: digitCh (ss % 10) ::
      (fracRender frac ++ tzRender tz)) = true
    have hst : secTail (':' :: digitCh (ss / 10 % 10) :: digitCh (ss % 10) ::
        (fracRender frac ++ tzRender tz)) =
        (isDigitCh (digitCh (ss / 10 % 10)) && isDigitCh (digitCh (ss % 10)) &&
         fracTail (fracRender frac ++ tzRender tz)) := rfl
    rw [hst, fracTail_render frac tz hfr]
    simp [isDigitCh_mod]

/-- C10 counterexample: `"2024"` is a 4-char year shape the date parser
accepts, yet `FHIR_DATE_RE` rejects it (the regex starts at `\d{4}-\d{2}`),
so under a non-date-like key the value is never shifted. -/
theorem C10_counterexample_bare_year_not_recognized :
    fhirDateMatch "2024".data = false ∧
    parseFhirDate "2024".data ≠ none ∧
    recursively_deidentify PHI_POLICY "s".data 366 false false 2025
      (.obj [("foo".data, .str "2024".data)]) =
      .ok (.obj [("foo".data, .str "2024".data)]) := by
  refine ⟨by decide, by decide, by decide⟩

/-- C10: for a non-stripped string field, the date branch runs exactly when
the lower-cased key ends in `date`/`datetime`/`instant` or the value matches
`FHIR_DATE_RE`; an untriggered field is never shifted, a triggered parsed
field is shifted, the regex rejects every 4-character string (so a bare
year is recognized only via the key), and accepts every valid longer shape
of the 4.1 grammar. -/
theorem C10_date_trigger_characterization
    (p : Policy) (salt : LC) (off : Int) (c sh : Bool) (today : Nat)
    (fs out : List (LC × Json)) (k sv : LC)
    (hnd : (fs.map Prod.fst).Nodup)
    (hk : alookup k fs = some (.str sv))
    (hnphi : k ∉ phiFieldsFor p (tagOf fs) sh)
    (hok : recursively_deidentify p salt off c sh today (.obj fs) = .ok (.obj out)) :
    dateTrigger k sv = (keyIsDateLike k || fhirDateMatch sv) ∧
    (dateTrigger k sv = false → alookup k out = some (.str sv)) ∧
    (∀ (dt : PyDateTime) (sfx : LC) (frac : Nat) (s2 : LC),
      parseFhirDate sv = some (dt, sfx, frac) → dateTrigger k sv = true →
      shift_date sv off c = .ok s2 →
      alookup k out = some (.str (if sh ∧ k = kBirthDate then binAge today s2 else s2))) ∧
    (∀ s : LC, s.length = 4 → fhirDateMatch s = false) ∧
    (∀ sp : FShape, validShape sp = true → (∀ y2, sp ≠ .year y2) →
      fhirDateMatch (render sp) = true) := by
  obtain ⟨hrt, out2, hout, hdf⟩ := rd_obj_ok_inv hok
  injection hout with hout
  subst hout
  refine ⟨rfl, ?_, ?_, fhirDateMatch_len4, fhirDateMatch_render⟩
  · intro htf
    have hdj := deidFields_alookup hnd hdf k (.str sv) hk
    rw [deidEntry_str_unchanged hnphi (Or.inl htf)] at hdj
    rcases hdj with ⟨v2, he, hlk⟩ | ⟨he, _⟩
    · simp only [Except.ok.injEq, Option.some.injEq] at he
      rw [hlk, ← he]
    · exact absurd he (by simp)
  · intro dt sfx frac s2 hp htr hs
    have hdj := deidFields_alookup hnd hdf k (.str sv) hk
    rw [deidEntry_str_shifted hnphi htr hp hs] at hdj
    rcases hdj with ⟨v2, he, hlk⟩ | ⟨he, _⟩
    · simp only [Except.ok.injEq, Option.some.injEq] at he
      rw [hlk, ← he]
    · exact absurd he (by simp)

def C10fs : List (LC × Json) := [("start".data, .str "2024-03-04".data)]

def C10out : List (LC × Json) := [("start".data, .str "2024-03-05".data)]

theorem C10_date_trigger_characterization_witness :
    ((C10fs.map Prod.fst).Nodup ∧
     alookup "start".data C10fs = some (.str "2024-03-04".data) ∧
     "start".data ∉ phiFieldsFor PHI_POLICY (tagOf C10fs) false ∧
     recursively_deidentify PHI_POLICY "s".data 1 false false 2025 (.obj C10fs) =
       .ok (.obj C10out) ∧
     parseFhirDate "2024-03-04".data = some (⟨2024, 3, 4, 0, 0, 0, 0⟩, [], 0) ∧
     dateTrigger "start".data "2024-03-04".data = true ∧
     shift_date "2024-03-04".data 1 false = .ok "2024-03-05".data) ∧
    alookup "start".data C10out = some (.str "2024-03-05".data) := by
  refine ⟨⟨by decide, by decide, by decide, by decide, by decide, by decide, by decide⟩, ?_⟩
  have h := C10_date_trigger_characterization PHI_POLICY "s".data 1 false false 2025
    C10fs C10out "start".data "2024-03-04".data (by decide) (by decide) (by decide) (by decide)
  have h3 := h.2.2.1 ⟨2024, 3, 4, 0, 0, 0, 0⟩ [] 0 "2024-03-05".data
    (by decide) (by decide) (by decide)
  rw [h3]
  decide
